import Mathlib

/-!
# Verification of the worshipper-data binary decoder

Shallow embedding of `src/pyutil/worshipper_data.py` (and its identical copy
`src/sprites/worshipper_data.py`): the `WorshipperData` cursor class and the
module-level decode script.

Modelling conventions:

* A byte is a `Nat` (with `< 256` stated as a hypothesis where it matters);
  the open file together with its position is a `Cursor` holding the byte
  buffer and the current offset.  `fread` models Python's `file.read(k)`
  on a cursor whose offset does not exceed the buffer length: it returns
  `min k (length - offset)` bytes and advances the offset by that amount
  (a short read near the end of the file is silent, exactly as in Python).
* Every operation is written in state-passing style, returning its result
  together with the cursor state after the call; fallible operations return
  `Except Err α`.  The error kinds are `bufferUnderrun` (Python
  `struct.error` when `f.read(4)` returned fewer than 4 bytes),
  `invalidEncoding` (Python `UnicodeDecodeError`) and `invalidPadding`
  (the `ValueError` raised on a nonzero string-padding byte).
* An `f32` is represented by its raw little-endian 32-bit pattern as a
  `Nat`: the decoder reads the four bytes verbatim and never computes with
  the floating-point value, so the bit pattern is a faithful representation.
* A Python `str` is represented as its list of Unicode code points
  (`List Nat`); `utf8DecodeAux` is strict UTF-8 decoding exactly as
  `bytes.decode("utf-8")` (rejecting overlong forms, surrogates and code
  points above `0x10FFFF`).
* `read_set` builds a Python `dict`: `dictInsert` overwrites the value in
  place when the key is present and appends otherwise, preserving insertion
  order.  The value attached to a slot (`CVal.slotC`) and the value stored
  by the trailing `colors["last"] = (...)` assignment (`CVal.lastC`) are
  distinguished, mirroring the dict-vs-tuple shapes in the source.
* `read_skin` models the method as it executes in the script, where the
  receiver is always the module-global cursor `w`, so the source line
  `set_count = w.read_u32()` reads from the same stream as every
  `self.read_u32()`.  `read_skin_method` models the method's text for a
  receiver distinct from the global `w`: it threads two cursor states and
  reads `set_count` from the second one.
* The skin loop `while True: if w.at_eof(): break; ...` is modelled with a
  fuel parameter; `decode_document` supplies `buffer length + 1`, which is
  proved sufficient (each successful `read_skin` strictly advances the
  offset), so the fuel is a modelling artifact, not a bound present in the
  source.
-/

set_option maxHeartbeats 1000000
set_option maxRecDepth 10000

namespace WorshipperData

/-- Error kinds of the decoder (spec §7). -/
inductive Err where
  | bufferUnderrun
  | invalidEncoding
  | invalidPadding
deriving DecidableEq, Repr

/-- The `WorshipperData` object: the byte buffer of the open file together
with the current file position. -/
structure Cursor where
  buf : List Nat
  off : Nat
deriving DecidableEq, Repr

/-- Python `self.f.read(k)`: return the next `min k (length - offset)` bytes
and advance the position over them. -/
def fread (c : Cursor) (k : Nat) : List Nat × Cursor :=
  ((c.buf.drop c.off).take k, ⟨c.buf, min (c.off + k) c.buf.length⟩)

/-- `at_eof(self)`: `self.f.tell() == self.length`.  Returned in
state-passing style together with the (unchanged) cursor state. -/
def at_eof (c : Cursor) : Bool × Cursor :=
  (c.off == c.buf.length, c)

/-- Little-endian interpretation of a byte list (`struct.unpack("<L", ·)`
on a 4-byte string). -/
def leU32 (bs : List Nat) : Nat :=
  bs.foldr (fun b acc => b + 256 * acc) 0

/-- `read_u32(self)`: `struct.unpack("<L", self.f.read(4))[0]`.
`struct.unpack` demands exactly 4 bytes; a short read raises
`struct.error` (`bufferUnderrun`) after the bytes were already consumed. -/
def read_u32 (c : Cursor) : Except Err Nat × Cursor :=
  if (fread c 4).1.length = 4 then (Except.ok (leU32 (fread c 4).1), (fread c 4).2)
  else (Except.error Err.bufferUnderrun, (fread c 4).2)

/-- `read_f32(self)`: `struct.unpack("<f", self.f.read(4))[0]`.  The value
is represented by its raw little-endian bit pattern. -/
def read_f32 (c : Cursor) : Except Err Nat × Cursor :=
  if (fread c 4).1.length = 4 then (Except.ok (leU32 (fread c 4).1), (fread c 4).2)
  else (Except.error Err.bufferUnderrun, (fread c 4).2)

/-- One step of strict UTF-8 decoding, exactly as Python's
`bytes.decode("utf-8")`: given the leading byte `b` and the remaining
bytes, produce the decoded code point and the rest of the input, or `none`
on a malformed sequence.  Rejects stray continuation bytes, overlong
encodings (`0xC0`/`0xC1` leads, and range floors on the first continuation
byte), surrogates (`0xED` with first continuation above `0x9F`) and code
points above `0x10FFFF` (`0xF4` with first continuation above `0x8F`). -/
def utf8Step (b : Nat) (bs : List Nat) : Option (Nat × List Nat) :=
  if b < 128 then some (b, bs)
  else if 194 ≤ b ∧ b ≤ 223 then
    match bs with
    | c1 :: bs2 =>
      if 128 ≤ c1 ∧ c1 ≤ 191 then some ((b - 192) * 64 + (c1 - 128), bs2) else none
    | [] => none
  else if 224 ≤ b ∧ b ≤ 239 then
    match bs with
    | c1 :: c2 :: bs2 =>
      if (if b = 224 then 160 ≤ c1 ∧ c1 ≤ 191
          else if b = 237 then 128 ≤ c1 ∧ c1 ≤ 159
          else 128 ≤ c1 ∧ c1 ≤ 191) ∧ 128 ≤ c2 ∧ c2 ≤ 191 then
        some ((b - 224) * 4096 + (c1 - 128) * 64 + (c2 - 128), bs2)
      else none
    | _ => none
  else if 240 ≤ b ∧ b ≤ 244 then
    match bs with
    | c1 :: c2 :: c3 :: bs2 =>
      if (if b = 240 then 144 ≤ c1 ∧ c1 ≤ 191
          else if b = 244 then 128 ≤ c1 ∧ c1 ≤ 143
          else 128 ≤ c1 ∧ c1 ≤ 191) ∧ 128 ≤ c2 ∧ c2 ≤ 191 ∧ 128 ≤ c3 ∧ c3 ≤ 191 then
        some ((b - 240) * 262144 + (c1 - 128) * 4096 + (c2 - 128) * 64 + (c3 - 128), bs2)
      else none
    | _ => none
  else none

/-- Iterate `utf8Step` with a structural fuel parameter (so that the
definition evaluates by kernel reduction).  Each step consumes at least
one byte, so fuel equal to the input length never runs out —
`utf8DecodeLoop_fuel` below proves the fuel is a pure modelling
artifact. -/
def utf8DecodeLoop : Nat → List Nat → Option (List Nat)
  | _, [] => some []
  | 0, _ :: _ => none
  | Nat.succ fuel, b :: bs =>
    match utf8Step b bs with
    | none => none
    | some (cp, rest) => (utf8DecodeLoop fuel rest).map (fun r => cp :: r)

/-- Strict UTF-8 decoding of a whole byte list into code points
(`bytes.decode("utf-8")`), by iterating `utf8Step`. -/
def utf8DecodeAux (bs : List Nat) : Option (List Nat) := utf8DecodeLoop bs.length bs

/-- UTF-8 encoding of one code point. -/
def utf8EncodeChar (cp : Nat) : List Nat :=
  if cp < 128 then [cp]
  else if cp < 2048 then [192 + cp / 64, 128 + cp % 64]
  else if cp < 65536 then [224 + cp / 4096, 128 + cp / 64 % 64, 128 + cp % 64]
  else [240 + cp / 262144, 128 + cp / 4096 % 64, 128 + cp / 64 % 64, 128 + cp % 64]

/-- UTF-8 encoding of a code-point list. -/
def utf8Encode : List Nat → List Nat
  | [] => []
  | cp :: cps => utf8EncodeChar cp ++ utf8Encode cps

/-- `read_string(self)`: read a u32 length, read that many raw bytes
(silently short near end of file, like Python `file.read`), then if the
length is not a multiple of 4 read the padding bytes and fail with
`invalidPadding` on any nonzero one, and finally UTF-8-decode the content
(failing with `invalidEncoding` on a decode error).  The padding check
precedes the decode, as in the source. -/
def read_string (c : Cursor) : Except Err (List Nat) × Cursor :=
  match read_u32 c with
  | (Except.error e, c') => (Except.error e, c')
  | (Except.ok length, c1) =>
    let s := (fread c1 length).1
    let c2 := (fread c1 length).2
    if length % 4 ≠ 0 then
      let padding := (fread c2 (4 - length % 4)).1
      let c3 := (fread c2 (4 - length % 4)).2
      if padding.all (fun p => p == 0) then
        match utf8DecodeAux s with
        | some str => (Except.ok str, c3)
        | none => (Except.error Err.invalidEncoding, c3)
      else (Except.error Err.invalidPadding, c3)
    else
      match utf8DecodeAux s with
      | some str => (Except.ok str, c2)
      | none => (Except.error Err.invalidEncoding, c2)

/-- An RGBA color; each component is the raw bit pattern of an `f32`. -/
structure Color where
  r : Nat
  g : Nat
  b : Nat
  a : Nat
deriving DecidableEq, Repr

/-- A value stored in the `colors` dict of `read_set`: either a slot color
(stored as the dict `{"r": r, "g": g, "b": b, "a": a}`) or the trailing
color (stored as the tuple `(r, g, b, a)` under the key `"last"`). -/
inductive CVal where
  | slotC (c : Color)
  | lastC (c : Color)
deriving DecidableEq, Repr

/-- The color component of a `CVal`, regardless of its shape. -/
def CVal.color : CVal → Color
  | CVal.slotC c => c
  | CVal.lastC c => c

/-- A Python dict from strings (code-point lists) to `CVal`, as an
insertion-ordered association list. -/
abbrev ColorSet := List (List Nat × CVal)

/-- Python dict assignment `d[k] = v`: overwrite in place when the key is
present, append otherwise. -/
def dictInsert (d : ColorSet) (k : List Nat) (v : CVal) : ColorSet :=
  if d.any (fun p => p.1 == k) then d.map (fun p => if p.1 == k then (k, v) else p)
  else d ++ [(k, v)]

/-- The code points of the string `"last"`. -/
def lastKey : List Nat := [108, 97, 115, 116]

/-- Four consecutive `read_f32` calls (the r, g, b, a component reads of
`read_set`, evaluated left to right). -/
def read_rgba (c : Cursor) : Except Err Color × Cursor :=
  match read_f32 c with
  | (Except.error e, c') => (Except.error e, c')
  | (Except.ok r, c1) =>
    match read_f32 c1 with
    | (Except.error e, c') => (Except.error e, c')
    | (Except.ok g, c2) =>
      match read_f32 c2 with
      | (Except.error e, c') => (Except.error e, c')
      | (Except.ok b, c3) =>
        match read_f32 c3 with
        | (Except.error e, c') => (Except.error e, c')
        | (Except.ok a, c4) => (Except.ok ⟨r, g, b, a⟩, c4)

/-- The `for _ in range(slot_count)` loop of `read_set`, carrying the
`colors` dict accumulator. -/
def read_slots : Nat → ColorSet → Cursor → Except Err ColorSet × Cursor
  | 0, colors, c => (Except.ok colors, c)
  | Nat.succ n, colors, c =>
    match read_string c with
    | (Except.error e, c') => (Except.error e, c')
    | (Except.ok slot, c1) =>
      match read_rgba c1 with
      | (Except.error e, c') => (Except.error e, c')
      | (Except.ok col, c2) => read_slots n (dictInsert colors slot (CVal.slotC col)) c2

/-- `read_set(self)`: slot count, that many (slot name, rgba) pairs folded
into the dict, then the trailing rgba assigned to `colors["last"]`. -/
def read_set (c : Cursor) : Except Err ColorSet × Cursor :=
  match read_u32 c with
  | (Except.error e, c') => (Except.error e, c')
  | (Except.ok slot_count, c1) =>
    match read_slots slot_count [] c1 with
    | (Except.error e, c') => (Except.error e, c')
    | (Except.ok colors, c2) =>
      match read_rgba c2 with
      | (Except.error e, c') => (Except.error e, c')
      | (Except.ok lastc, c3) => (Except.ok (dictInsert colors lastKey (CVal.lastC lastc)), c3)

/-- A decoded skin record. -/
structure Skin where
  name : List Nat
  zone : Nat
  is_blocked : Nat
  is_toww : Nat
  is_boss : Nat
  skins : List (List Nat)
  sets : List ColorSet
  last : Nat
deriving DecidableEq, Repr

/-- The `for i in range(skin_count)` loop of `read_skin`, collecting skin
name strings in read order. -/
def read_strings : Nat → Cursor → Except Err (List (List Nat)) × Cursor
  | 0, c => (Except.ok [], c)
  | Nat.succ n, c =>
    match read_string c with
    | (Except.error e, c') => (Except.error e, c')
    | (Except.ok s, c1) =>
      match read_strings n c1 with
      | (Except.error e, c') => (Except.error e, c')
      | (Except.ok l, c2) => (Except.ok (s :: l), c2)

/-- The `for s in range(set_count)` loop, collecting color sets in read
order. -/
def read_sets : Nat → Cursor → Except Err (List ColorSet) × Cursor
  | 0, c => (Except.ok [], c)
  | Nat.succ n, c =>
    match read_set c with
    | (Except.error e, c') => (Except.error e, c')
    | (Except.ok s, c1) =>
      match read_sets n c1 with
      | (Except.error e, c') => (Except.error e, c')
      | (Except.ok l, c2) => (Except.ok (s :: l), c2)

/-- The `for i in range(n)` loop collecting u32 words (the 11 header
words of the decode script). -/
def read_u32s : Nat → Cursor → Except Err (List Nat) × Cursor
  | 0, c => (Except.ok [], c)
  | Nat.succ n, c =>
    match read_u32 c with
    | (Except.error e, c') => (Except.error e, c')
    | (Except.ok v, c1) =>
      match read_u32s n c1 with
      | (Except.error e, c') => (Except.error e, c')
      | (Except.ok l, c2) => (Except.ok (v :: l), c2)

/-- `read_skin(self)` as executed by the decode script, where the receiver
is the module-global cursor `w`: the source line `set_count = w.read_u32()`
therefore reads from the same stream as the surrounding `self` reads, and
the whole record is decoded sequentially from one cursor. -/
def read_skin (c : Cursor) : Except Err Skin × Cursor :=
  match read_string c with
  | (Except.error e, c') => (Except.error e, c')
  | (Except.ok name, c1) =>
    match read_u32 c1 with
    | (Except.error e, c') => (Except.error e, c')
    | (Except.ok zone, c2) =>
      match read_u32 c2 with
      | (Except.error e, c') => (Except.error e, c')
      | (Except.ok isb, c3) =>
        match read_u32 c3 with
        | (Except.error e, c') => (Except.error e, c')
        | (Except.ok ist, c4) =>
          match read_u32 c4 with
          | (Except.error e, c') => (Except.error e, c')
          | (Except.ok iso, c5) =>
            match read_u32 c5 with
            | (Except.error e, c') => (Except.error e, c')
            | (Except.ok skin_count, c6) =>
              match read_strings skin_count c6 with
              | (Except.error e, c') => (Except.error e, c')
              | (Except.ok skins, c7) =>
                match read_u32 c7 with
                | (Except.error e, c') => (Except.error e, c')
                | (Except.ok set_count, c8) =>
                  match read_sets set_count c8 with
                  | (Except.error e, c') => (Except.error e, c')
                  | (Except.ok sets, c9) =>
                    match read_u32 c9 with
                    | (Except.error e, c') => (Except.error e, c')
                    | (Except.ok last, c10) =>
                      (Except.ok ⟨name, zone, isb, ist, iso, skins, sets, last⟩, c10)

/-- `read_skin(self)` as written, for a receiver distinct from the
module-global cursor `w`: every read comes from the receiver `s` except
`set_count = w.read_u32()`, which reads from (and advances) the global
cursor.  Returns the result together with the states of both cursors. -/
def read_skin_method (s wc : Cursor) : Except Err Skin × Cursor × Cursor :=
  match read_string s with
  | (Except.error e, s') => (Except.error e, s', wc)
  | (Except.ok name, s1) =>
    match read_u32 s1 with
    | (Except.error e, s') => (Except.error e, s', wc)
    | (Except.ok zone, s2) =>
      match read_u32 s2 with
      | (Except.error e, s') => (Except.error e, s', wc)
      | (Except.ok isb, s3) =>
        match read_u32 s3 with
        | (Except.error e, s') => (Except.error e, s', wc)
        | (Except.ok ist, s4) =>
          match read_u32 s4 with
          | (Except.error e, s') => (Except.error e, s', wc)
          | (Except.ok iso, s5) =>
            match read_u32 s5 with
            | (Except.error e, s') => (Except.error e, s', wc)
            | (Except.ok skin_count, s6) =>
              match read_strings skin_count s6 with
              | (Except.error e, s') => (Except.error e, s', wc)
              | (Except.ok skins, s7) =>
                match read_u32 wc with
                | (Except.error e, wc') => (Except.error e, s7, wc')
                | (Except.ok set_count, wc1) =>
                  match read_sets set_count s7 with
                  | (Except.error e, s') => (Except.error e, s', wc1)
                  | (Except.ok sets, s9) =>
                    match read_u32 s9 with
                    | (Except.error e, s') => (Except.error e, s', wc1)
                    | (Except.ok last, s10) =>
                      (Except.ok ⟨name, zone, isb, ist, iso, skins, sets, last⟩, s10, wc1)

/-- The decoded document: the 11 opaque header words, the initial color
sets, the trailing u32 and the skin list. -/
structure Document where
  unk : List Nat
  initial_sets : List ColorSet
  last : Nat
  skins : List Skin
deriving DecidableEq, Repr

/-- The `while True: if w.at_eof(): break; skins.append(w.read_skin())`
loop.  The fuel parameter is a modelling artifact for the unbounded source
loop; `decode_document` supplies `buffer length + 1`, which is proved
sufficient because each successful `read_skin` strictly advances the
offset. -/
def decode_skins : Nat → Cursor → Except Err (List Skin) × Cursor
  | 0, c => (Except.ok [], c)
  | Nat.succ fuel, c =>
    if (at_eof c).1 then (Except.ok [], (at_eof c).2)
    else
      match read_skin c with
      | (Except.error e, c') => (Except.error e, c')
      | (Except.ok sk, c1) =>
        match decode_skins fuel c1 with
        | (Except.error e, c') => (Except.error e, c')
        | (Except.ok l, c2) => (Except.ok (sk :: l), c2)

/-- The module-level decode script: 11 header words, `set_count` and that
many initial sets, a trailing u32, then skins until end of file. -/
def decode_document (c : Cursor) : Except Err Document × Cursor :=
  match read_u32s 11 c with
  | (Except.error e, c') => (Except.error e, c')
  | (Except.ok unk, c1) =>
    match read_u32 c1 with
    | (Except.error e, c') => (Except.error e, c')
    | (Except.ok set_count, c2) =>
      match read_sets set_count c2 with
      | (Except.error e, c') => (Except.error e, c')
      | (Except.ok initial_sets, c3) =>
        match read_u32 c3 with
        | (Except.error e, c') => (Except.error e, c')
        | (Except.ok last, c4) =>
          match decode_skins (c.buf.length + 1) c4 with
          | (Except.error e, c') => (Except.error e, c')
          | (Except.ok skins, c5) => (Except.ok ⟨unk, initial_sets, last, skins⟩, c5)

/-- Modelled from the spec: a ColorSet as the grammar of §3 describes it —
the slot (name, color) pairs in read order, kept as a plain list (no dict
collapse), plus the distinguished trailing color kept separately. -/
structure GColorSet where
  slots : List (List Nat × Color)
  last : Color
deriving DecidableEq, Repr

/-- Modelled from the spec: a Skin whose color sets are grammar-level
`GColorSet`s. -/
structure GSkin where
  name : List Nat
  zone : Nat
  is_blocked : Nat
  is_toww : Nat
  is_boss : Nat
  skins : List (List Nat)
  sets : List GColorSet
  last : Nat
deriving DecidableEq, Repr

/-- Modelled from the spec: a Document whose color sets are grammar-level
`GColorSet`s. -/
structure GDoc where
  unk : List Nat
  initial_sets : List GColorSet
  last : Nat
  skins : List GSkin
deriving DecidableEq, Repr

/-- Modelled from the spec: the slot loop of `decode_color_set` per the
grammar of §4.2, keeping the (name, color) pairs in read order instead of
folding them into a dict. -/
def gread_slots : Nat → Cursor → Except Err (List (List Nat × Color)) × Cursor
  | 0, c => (Except.ok [], c)
  | Nat.succ n, c =>
    match read_string c with
    | (Except.error e, c') => (Except.error e, c')
    | (Except.ok slot, c1) =>
      match read_rgba c1 with
      | (Except.error e, c') => (Except.error e, c')
      | (Except.ok col, c2) =>
        match gread_slots n c2 with
        | (Except.error e, c') => (Except.error e, c')
        | (Except.ok ps, c3) => (Except.ok ((slot, col) :: ps), c3)

/-- Modelled from the spec: `decode_color_set` per the grammar of §4.2,
producing a `GColorSet`. -/
def gread_set (c : Cursor) : Except Err GColorSet × Cursor :=
  match read_u32 c with
  | (Except.error e, c') => (Except.error e, c')
  | (Except.ok slot_count, c1) =>
    match gread_slots slot_count c1 with
    | (Except.error e, c') => (Except.error e, c')
    | (Except.ok ps, c2) =>
      match read_rgba c2 with
      | (Except.error e, c') => (Except.error e, c')
      | (Except.ok lastc, c3) => (Except.ok ⟨ps, lastc⟩, c3)

/-- Modelled from the spec: the set-list loop over `gread_set`. -/
def gread_sets : Nat → Cursor → Except Err (List GColorSet) × Cursor
  | 0, c => (Except.ok [], c)
  | Nat.succ n, c =>
    match gread_set c with
    | (Except.error e, c') => (Except.error e, c')
    | (Except.ok s, c1) =>
      match gread_sets n c1 with
      | (Except.error e, c') => (Except.error e, c')
      | (Except.ok l, c2) => (Except.ok (s :: l), c2)

/-- Modelled from the spec: `decode_skin` per the grammar of §4.2 over
grammar-level color sets (field order identical to `read_skin`). -/
def gread_skin (c : Cursor) : Except Err GSkin × Cursor :=
  match read_string c with
  | (Except.error e, c') => (Except.error e, c')
  | (Except.ok name, c1) =>
    match read_u32 c1 with
    | (Except.error e, c') => (Except.error e, c')
    | (Except.ok zone, c2) =>
      match read_u32 c2 with
      | (Except.error e, c') => (Except.error e, c')
      | (Except.ok isb, c3) =>
        match read_u32 c3 with
        | (Except.error e, c') => (Except.error e, c')
        | (Except.ok ist, c4) =>
          match read_u32 c4 with
          | (Except.error e, c') => (Except.error e, c')
          | (Except.ok iso, c5) =>
            match read_u32 c5 with
            | (Except.error e, c') => (Except.error e, c')
            | (Except.ok skin_count, c6) =>
              match read_strings skin_count c6 with
              | (Except.error e, c') => (Except.error e, c')
              | (Except.ok skins, c7) =>
                match read_u32 c7 with
                | (Except.error e, c') => (Except.error e, c')
                | (Except.ok set_count, c8) =>
                  match gread_sets set_count c8 with
                  | (Except.error e, c') => (Except.error e, c')
                  | (Except.ok sets, c9) =>
                    match read_u32 c9 with
                    | (Except.error e, c') => (Except.error e, c')
                    | (Except.ok last, c10) =>
                      (Except.ok ⟨name, zone, isb, ist, iso, skins, sets, last⟩, c10)

/-- Modelled from the spec: the skin loop per §4.2 over `gread_skin`. -/
def gdecode_skins : Nat → Cursor → Except Err (List GSkin) × Cursor
  | 0, c => (Except.ok [], c)
  | Nat.succ fuel, c =>
    if (at_eof c).1 then (Except.ok [], (at_eof c).2)
    else
      match gread_skin c with
      | (Except.error e, c') => (Except.error e, c')
      | (Except.ok sk, c1) =>
        match gdecode_skins fuel c1 with
        | (Except.error e, c') => (Except.error e, c')
        | (Except.ok l, c2) => (Except.ok (sk :: l), c2)

/-- Modelled from the spec: `decode_document` per the grammar of §4.2 over
grammar-level color sets. -/
def gdecode_document (c : Cursor) : Except Err GDoc × Cursor :=
  match read_u32s 11 c with
  | (Except.error e, c') => (Except.error e, c')
  | (Except.ok unk, c1) =>
    match read_u32 c1 with
    | (Except.error e, c') => (Except.error e, c')
    | (Except.ok set_count, c2) =>
      match gread_sets set_count c2 with
      | (Except.error e, c') => (Except.error e, c')
      | (Except.ok initial_sets, c3) =>
        match read_u32 c3 with
        | (Except.error e, c') => (Except.error e, c')
        | (Except.ok last, c4) =>
          match gdecode_skins (c.buf.length + 1) c4 with
          | (Except.error e, c') => (Except.error e, c')
          | (Except.ok skins, c5) => (Except.ok ⟨unk, initial_sets, last, skins⟩, c5)

/-- Fold the grammar-level slot pairs into a Python dict, exactly as the
loop body of `read_set` does. -/
def insSlots (acc : ColorSet) (ps : List (List Nat × Color)) : ColorSet :=
  ps.foldl (fun d p => dictInsert d p.1 (CVal.slotC p.2)) acc

/-- Collapse a grammar-level color set into the dict the source builds. -/
def collapseSet (g : GColorSet) : ColorSet :=
  dictInsert (insSlots [] g.slots) lastKey (CVal.lastC g.last)

/-- Collapse a grammar-level skin into the source's skin value. -/
def collapseSkin (g : GSkin) : Skin :=
  ⟨g.name, g.zone, g.is_blocked, g.is_toww, g.is_boss, g.skins,
    g.sets.map collapseSet, g.last⟩

/-- Collapse a grammar-level document into the source's document value. -/
def collapseDoc (g : GDoc) : Document :=
  ⟨g.unk, g.initial_sets.map collapseSet, g.last, g.skins.map collapseSkin⟩

/-- Modelled from the spec: little-endian u32 encoding (§3, §9 — the
source has no write path). -/
def encode_u32 (n : Nat) : List Nat :=
  [n % 256, n / 256 % 256, n / 65536 % 256, n / 16777216 % 256]

/-- Modelled from the spec: 4×f32 encoding of a color, each component
written back as its little-endian bit pattern. -/
def encode_color (col : Color) : List Nat :=
  encode_u32 col.r ++ encode_u32 col.g ++ encode_u32 col.b ++ encode_u32 col.a

/-- Number of padding bytes after a string body of `n` bytes. -/
def padOf (n : Nat) : Nat := if n % 4 = 0 then 0 else 4 - n % 4

/-- Modelled from the spec: length-prefixed, zero-padded UTF-8 string
encoding (§4.1). -/
def encode_string (s : List Nat) : List Nat :=
  encode_u32 (utf8Encode s).length ++ utf8Encode s ++ List.replicate (padOf (utf8Encode s).length) 0

/-- Modelled from the spec: color-set encoding of the source's dict
representation — the slot entries are the entries other than the `"last"`
key, the trailing color is the `"last"` entry, the slot count is the
number of slot entries (§3-§4 grammar, §9 design note). -/
def encode_set (d : ColorSet) : List Nat :=
  encode_u32 (d.filter (fun p => !(p.1 == lastKey))).length ++
    ((d.filter (fun p => !(p.1 == lastKey))).map
      (fun p => encode_string p.1 ++ encode_color p.2.color)).flatten ++
    encode_color ((((d.find? (fun p => p.1 == lastKey)).map Prod.snd).getD
      (CVal.lastC ⟨0, 0, 0, 0⟩)).color)

/-- Modelled from the spec: skin encoding per the grammar, counts equal to
list lengths. -/
def encode_skin (sk : Skin) : List Nat :=
  encode_string sk.name ++ encode_u32 sk.zone ++ encode_u32 sk.is_blocked ++
    encode_u32 sk.is_toww ++ encode_u32 sk.is_boss ++
    encode_u32 sk.skins.length ++ (sk.skins.map encode_string).flatten ++
    encode_u32 sk.sets.length ++ (sk.sets.map encode_set).flatten ++
    encode_u32 sk.last

/-- Modelled from the spec: document encoding per the grammar, counts
equal to list lengths. -/
def encode_document (d : Document) : List Nat :=
  (d.unk.map encode_u32).flatten ++ encode_u32 d.initial_sets.length ++
    (d.initial_sets.map encode_set).flatten ++ encode_u32 d.last ++
    (d.skins.map encode_skin).flatten

/-- Modelled from the spec: grammar-level color-set encoding. -/
def gencode_set (g : GColorSet) : List Nat :=
  encode_u32 g.slots.length ++
    (g.slots.map (fun p => encode_string p.1 ++ encode_color p.2)).flatten ++
    encode_color g.last

/-- Modelled from the spec: grammar-level skin encoding. -/
def gencode_skin (sk : GSkin) : List Nat :=
  encode_string sk.name ++ encode_u32 sk.zone ++ encode_u32 sk.is_blocked ++
    encode_u32 sk.is_toww ++ encode_u32 sk.is_boss ++
    encode_u32 sk.skins.length ++ (sk.skins.map encode_string).flatten ++
    encode_u32 sk.sets.length ++ (sk.sets.map gencode_set).flatten ++
    encode_u32 sk.last

/-- Modelled from the spec: grammar-level document encoding. -/
def gencode_document (d : GDoc) : List Nat :=
  (d.unk.map encode_u32).flatten ++ encode_u32 d.initial_sets.length ++
    (d.initial_sets.map gencode_set).flatten ++ encode_u32 d.last ++
    (d.skins.map gencode_skin).flatten

/-- All entries of a byte list are bytes. -/
def Bytes (l : List Nat) : Prop := ∀ b ∈ l, b < 256

/-- A grammar-level color set is collision-free: its slot names are
pairwise distinct and none of them is the string `"last"`. -/
def WFSet (g : GColorSet) : Prop :=
  (g.slots.map Prod.fst).Nodup ∧ lastKey ∉ g.slots.map Prod.fst

/-- Every color set of the skin is collision-free. -/
def WFSkin (s : GSkin) : Prop := ∀ g ∈ s.sets, WFSet g

/-- Every color set of the document is collision-free. -/
def WFDoc (d : GDoc) : Prop :=
  (∀ g ∈ d.initial_sets, WFSet g) ∧ ∀ s ∈ d.skins, WFSkin s

instance : DecidablePred Bytes := fun l =>
  decidable_of_iff (∀ b ∈ l, b < 256) Iff.rfl

instance : DecidablePred WFSet := fun g =>
  decidable_of_iff ((g.slots.map Prod.fst).Nodup ∧
    lastKey ∉ g.slots.map Prod.fst) Iff.rfl

instance : DecidablePred WFSkin := fun s =>
  decidable_of_iff (∀ g ∈ s.sets, WFSet g) Iff.rfl

instance : DecidablePred WFDoc := fun d =>
  decidable_of_iff ((∀ g ∈ d.initial_sets, WFSet g) ∧
    ∀ s ∈ d.skins, WFSkin s) Iff.rfl

/-- The bytes of `l` from offset `a` (inclusive) to `b` (exclusive). -/
def slice (l : List Nat) (a b : Nat) : List Nat := (l.drop a).take (b - a)

/-- One cursor state follows another: the buffer is unchanged and, as long
as the starting offset is within the buffer, the offset does not decrease
and stays within the buffer. -/
def Steps (c c' : Cursor) : Prop :=
  c'.buf = c.buf ∧ (c.off ≤ c.buf.length → c.off ≤ c'.off ∧ c'.off ≤ c.buf.length)

/-- A 28-byte skin record: empty name, zone 1, three zero flags, zero skin
names, and the four bytes `[9,0,0,0]` that the record's own `last` field
occupies. -/
def bufC1 : List Nat :=
  [0, 0, 0, 0, 1, 0, 0, 0, 0, 0, 0, 0, 0, 0, 0, 0, 0, 0, 0, 0, 0, 0, 0, 0, 9, 0, 0, 0]

/-- A color-set stream with `slot_count = 1` whose single slot is literally
named `"last"` (colored with bit pattern 1), followed by the trailing color
(bit pattern 2). -/
def bufC2 : List Nat :=
  [1, 0, 0, 0, 4, 0, 0, 0, 108, 97, 115, 116] ++
    [1, 0, 0, 0, 1, 0, 0, 0, 1, 0, 0, 0, 1, 0, 0, 0] ++
    [2, 0, 0, 0, 2, 0, 0, 0, 2, 0, 0, 0, 2, 0, 0, 0]

/-- A color-set stream with `slot_count = 1`, one slot named `"a"` with the
zero color, and the trailing color with bit pattern 3. -/
def bufC2w : List Nat :=
  [1, 0, 0, 0] ++ [1, 0, 0, 0, 97, 0, 0, 0] ++ List.replicate 16 0 ++
    [3, 0, 0, 0, 3, 0, 0, 0, 3, 0, 0, 0, 3, 0, 0, 0]

/-- A 52-byte document: 11 zero header words, `initial_set_count = 0`, and
the trailing u32 `7`. -/
def buf52 : List Nat := List.replicate 44 0 ++ [0, 0, 0, 0] ++ [7, 0, 0, 0]

/-- `buf52` with one extra trailing byte appended. -/
def buf53 : List Nat := buf52 ++ [5]

/-- The document decoded from `buf52`. -/
def doc52 : Document := ⟨List.replicate 11 0, [], 7, []⟩

/-- A 120-byte document whose single initial color set declares
`slot_count = 2` with the SAME slot name `"a"` twice (colors with byte
patterns 0 and 1), then a trailing color (byte pattern 2), and no skins. -/
def bufC3 : List Nat :=
  List.replicate 44 0 ++ [1, 0, 0, 0] ++
    ([2, 0, 0, 0] ++ ([1, 0, 0, 0] ++ [97, 0, 0, 0] ++ List.replicate 16 0) ++
      ([1, 0, 0, 0] ++ [97, 0, 0, 0] ++ List.replicate 16 1) ++ List.replicate 16 2) ++
    [7, 0, 0, 0]

/-- The document decoded from `bufC3`: the duplicate slot has collapsed to
one dict entry, so the slot count is no longer recoverable. -/
def docC3 : Document :=
  ⟨List.replicate 11 0,
    [[([97], CVal.slotC ⟨16843009, 16843009, 16843009, 16843009⟩),
      (lastKey, CVal.lastC ⟨33686018, 33686018, 33686018, 33686018⟩)]],
    7, []⟩

/-- A 96-byte document with one initial color set (one slot `"a"` with byte
pattern 3, trailing color byte pattern 2) and no skins. -/
def bufC3w : List Nat :=
  List.replicate 44 0 ++ [1, 0, 0, 0] ++
    ([1, 0, 0, 0] ++ ([1, 0, 0, 0] ++ [97, 0, 0, 0] ++ List.replicate 16 3) ++
      List.replicate 16 2) ++
    [7, 0, 0, 0]

/-- The grammar-level document decoded from `bufC3w`. -/
def gdocC3w : GDoc :=
  ⟨List.replicate 11 0,
    [⟨[([97], ⟨50529027, 50529027, 50529027, 50529027⟩)],
      ⟨33686018, 33686018, 33686018, 33686018⟩⟩],
    7, []⟩

theorem slice_append (l : List Nat) (a b c : Nat) (hab : a ≤ b) (hbc : b ≤ c) :
    slice l a c = slice l a b ++ slice l b c := by
  unfold slice
  have h1 : c - a = (b - a) + (c - b) := by omega
  rw [h1, List.take_add]
  congr 2
  rw [List.drop_drop]
  congr 1
  omega

theorem slice_whole (l : List Nat) : slice l 0 l.length = l := by
  simp [slice]

theorem mem_slice {x : Nat} {l : List Nat} {a b : Nat} (h : x ∈ slice l a b) : x ∈ l :=
  List.mem_of_mem_drop (List.mem_of_mem_take h)

theorem fread_snd (c : Cursor) (k : Nat) :
    (fread c k).2 = ⟨c.buf, min (c.off + k) c.buf.length⟩ := rfl

theorem fread_fst (c : Cursor) (k : Nat) :
    (fread c k).1 = (c.buf.drop c.off).take k := rfl

theorem fread_fst_len (c : Cursor) (k : Nat) :
    (fread c k).1.length = min k (c.buf.length - c.off) := by
  simp [fread]

theorem fread_exact {c : Cursor} {k : Nat} (h : c.off + k ≤ c.buf.length) :
    fread c k = (slice c.buf c.off (c.off + k), ⟨c.buf, c.off + k⟩) := by
  simp [fread, slice, Nat.add_sub_cancel_left, Nat.min_eq_left h]

theorem steps_refl (c : Cursor) : Steps c c := ⟨rfl, fun h => ⟨Nat.le_refl _, h⟩⟩

theorem steps_trans {c c' c'' : Cursor} (h1 : Steps c c') (h2 : Steps c' c'') :
    Steps c c'' := by
  obtain ⟨hb1, ho1⟩ := h1
  obtain ⟨hb2, ho2⟩ := h2
  refine ⟨hb2.trans hb1, fun h => ?_⟩
  obtain ⟨ha, hc⟩ := ho1 h
  have h' : c'.off ≤ c'.buf.length := by rw [hb1]; exact hc
  obtain ⟨ha2, hc2⟩ := ho2 h'
  rw [hb1] at hc2
  exact ⟨ha.trans ha2, hc2⟩

theorem steps_fread (c : Cursor) (k : Nat) : Steps c (fread c k).2 := by
  refine ⟨rfl, fun h => ?_⟩
  simp only [fread]
  omega

theorem steps_read_u32 (c : Cursor) : Steps c (read_u32 c).2 := by
  unfold read_u32
  split <;> exact steps_fread c 4

theorem read_f32_eq (c : Cursor) : read_f32 c = read_u32 c := rfl

theorem steps_read_f32 (c : Cursor) : Steps c (read_f32 c).2 := by
  rw [read_f32_eq]; exact steps_read_u32 c

theorem read_u32_ok {c : Cursor} {v : Nat} {c' : Cursor}
    (h : read_u32 c = (Except.ok v, c')) :
    c.off + 4 ≤ c.buf.length ∧ v = leU32 (slice c.buf c.off (c.off + 4)) ∧
      c' = ⟨c.buf, c.off + 4⟩ := by
  unfold read_u32 at h
  split at h
  case isTrue hlen =>
    rw [fread_fst_len] at hlen
    have hle : c.off + 4 ≤ c.buf.length := by omega
    simp only [Prod.mk.injEq] at h
    obtain ⟨hv, hc⟩ := h
    injection hv with hv
    refine ⟨hle, ?_, ?_⟩
    · rw [← hv]
      congr 1
      simp [fread, slice]
    · rw [← hc, fread_snd]
      simp [Nat.min_eq_left hle]
  case isFalse hlen => simp at h

theorem read_u32_err {c : Cursor} {e : Err} {c' : Cursor}
    (h : read_u32 c = (Except.error e, c')) :
    e = Err.bufferUnderrun ∧ c.buf.length < c.off + 4 ∧
      c' = ⟨c.buf, min (c.off + 4) c.buf.length⟩ := by
  unfold read_u32 at h
  split at h
  case isTrue hlen => simp at h
  case isFalse hlen =>
    rw [fread_fst_len] at hlen
    simp only [Prod.mk.injEq] at h
    obtain ⟨hv, hc⟩ := h
    injection hv with hv
    exact ⟨hv.symm, by omega, by rw [← hc, fread_snd]⟩

theorem steps_read_string (c : Cursor) : Steps c (read_string c).2 := by
  unfold read_string
  rcases hu : read_u32 c with ⟨r, c1⟩
  have h1 : Steps c c1 := by
    have h := steps_read_u32 c
    rwa [hu] at h
  cases r with
  | error e => exact h1
  | ok n =>
    have h2 : Steps c (fread c1 n).2 := steps_trans h1 (steps_fread c1 n)
    have h3 : Steps c (fread (fread c1 n).2 (4 - n % 4)).2 := steps_trans h2 (steps_fread _ _)
    dsimp only
    split
    · split
      · split <;> exact h3
      · exact h3
    · split <;> exact h2

theorem slice_length {l : List Nat} {a k : Nat} (h : a + k ≤ l.length) :
    (slice l a (a + k)).length = k := by
  simp only [slice, List.length_take, List.length_drop]
  omega

theorem encode_leU32 {bs : List Nat} (h4 : bs.length = 4) (hb : ∀ b ∈ bs, b < 256) :
    encode_u32 (leU32 bs) = bs := by
  match bs, h4 with
  | [b0, b1, b2, b3], _ =>
    have hb0 : b0 < 256 := hb _ (by simp)
    have hb1 : b1 < 256 := hb _ (by simp)
    have hb2 : b2 < 256 := hb _ (by simp)
    have hb3 : b3 < 256 := hb _ (by simp)
    simp only [leU32, List.foldr, encode_u32, List.cons.injEq, and_true]
    refine ⟨?_, ?_, ?_, ?_⟩ <;> omega

theorem read_u32_ok_encode {c : Cursor} {v : Nat} {c' : Cursor}
    (hB : Bytes c.buf) (h : read_u32 c = (Except.ok v, c')) :
    encode_u32 v = slice c.buf c.off (c.off + 4) ∧ c' = ⟨c.buf, c.off + 4⟩ ∧
      c.off + 4 ≤ c.buf.length := by
  obtain ⟨hle, hv, hc⟩ := read_u32_ok h
  refine ⟨?_, hc, hle⟩
  rw [hv]
  exact encode_leU32 (slice_length hle) (fun b hb => hB b (mem_slice hb))

theorem all_zero_replicate {l : List Nat} (h : l.all (fun p => p == 0)) :
    l = List.replicate l.length 0 := by
  induction l with
  | nil => rfl
  | cons a t ih =>
    simp only [List.all_cons, Bool.and_eq_true, beq_iff_eq] at h
    rw [List.length_cons, List.replicate_succ, h.1]
    exact congrArg (List.cons 0) (ih h.2)

theorem read_string_of_enough {c : Cursor} {n : Nat} {c1 : Cursor}
    (hu : read_u32 c = (Except.ok n, c1))
    (hen : c1.off + n + padOf n ≤ c.buf.length) :
    read_string c =
      (if (slice c.buf (c1.off + n) (c1.off + n + padOf n)).all (fun p => p == 0) then
        match utf8DecodeAux (slice c.buf c1.off (c1.off + n)) with
        | some str => Except.ok str
        | none => Except.error Err.invalidEncoding
      else Except.error Err.invalidPadding,
      ⟨c.buf, c1.off + n + padOf n⟩) := by
  obtain ⟨hle, hv, hc⟩ := read_u32_ok hu
  have hbuf : c1.buf = c.buf := by rw [hc]
  have hoff : c1.off = c.off + 4 := by rw [hc]
  have hcont : fread c1 n = (slice c.buf c1.off (c1.off + n), ⟨c.buf, c1.off + n⟩) := by
    have := fread_exact (c := c1) (k := n) (by rw [hbuf]; omega)
    rwa [hbuf] at this
  unfold read_string
  rw [hu]
  dsimp only
  rw [hcont]
  dsimp only
  by_cases hmod : n % 4 = 0
  · rw [if_neg (not_not_intro hmod)]
    have hp : padOf n = 0 := by simp [padOf, hmod]
    rw [hp]
    simp only [Nat.add_zero]
    have hsl : slice c.buf (c1.off + n) (c1.off + n) = [] := by
      simp [slice]
    have hall : ((slice c.buf (c1.off + n) (c1.off + n)).all fun p => p == 0) = true := by
      rw [hsl]; rfl
    rw [if_pos hall]
    cases hdec : utf8DecodeAux (slice c.buf c1.off (c1.off + n)) <;> simp [hdec]
  · rw [if_pos (show n % 4 ≠ 0 from hmod)]
    have hp : padOf n = 4 - n % 4 := by simp [padOf, hmod]
    rw [hp] at hen ⊢
    have hpad : fread (⟨c.buf, c1.off + n⟩ : Cursor) (4 - n % 4) =
        (slice c.buf (c1.off + n) (c1.off + n + (4 - n % 4)), ⟨c.buf, c1.off + n + (4 - n % 4)⟩) :=
      fread_exact (by simp only []; omega)
    rw [hpad]
    dsimp only
    by_cases hall :
        ((slice c.buf (c1.off + n) (c1.off + n + (4 - n % 4))).all (fun p => p == 0)) = true
    · rw [if_pos hall, if_pos hall]
      cases hdec : utf8DecodeAux (slice c.buf c1.off (c1.off + n)) <;> simp [hdec]
    · rw [if_neg hall, if_neg hall]

theorem utf8Step_encode {b : Nat} {bs : List Nat} {cp : Nat} {rest : List Nat}
    (h : utf8Step b bs = some (cp, rest)) :
    utf8EncodeChar cp ++ rest = b :: bs := by
  simp only [utf8Step] at h
  repeat' split at h
  all_goals
    first
    | (injection h with h2
       rw [Prod.mk.injEq] at h2
       obtain ⟨hcp, hre⟩ := h2
       subst hcp
       subst hre
       simp only [utf8EncodeChar]
       repeat' split
       all_goals
         first
         | (exfalso; omega)
         | (simp only [List.cons_append, List.nil_append, List.cons.injEq, and_true]
            try omega))
    | simp at h

theorem utf8Step_rest_le {b : Nat} {bs : List Nat} {cp : Nat} {rest : List Nat}
    (h : utf8Step b bs = some (cp, rest)) : rest.length ≤ bs.length := by
  simp only [utf8Step] at h
  repeat' split at h
  all_goals
    first
    | (injection h with h2
       rw [Prod.mk.injEq] at h2
       obtain ⟨hva, hre⟩ := h2
       subst hre
       try simp only [List.length_cons]
       omega)
    | simp at h

theorem utf8EncodeLoop_decode {fuel : Nat} {bs cs : List Nat}
    (h : utf8DecodeLoop fuel bs = some cs) : utf8Encode cs = bs := by
  induction fuel generalizing bs cs with
  | zero =>
    cases bs with
    | nil =>
      injection h with h2
      rw [← h2]
      rfl
    | cons b t => exact absurd h (by simp [utf8DecodeLoop])
  | succ m ih =>
    cases bs with
    | nil =>
      injection h with h2
      rw [← h2]
      rfl
    | cons b t =>
      unfold utf8DecodeLoop at h
      rcases hstep : utf8Step b t with - | ⟨cp, rest⟩
      · rw [hstep] at h
        exact absurd h (by simp)
      · rw [hstep] at h
        dsimp only at h
        cases hdec : utf8DecodeLoop m rest with
        | none => rw [hdec] at h; exact absurd h (by simp)
        | some r =>
          rw [hdec] at h
          simp only [Option.map_some', Option.some.injEq] at h
          rw [← h]
          show utf8EncodeChar cp ++ utf8Encode r = b :: t
          rw [ih hdec]
          exact utf8Step_encode hstep

theorem utf8Encode_decode {bs cs : List Nat} (h : utf8DecodeAux bs = some cs) :
    utf8Encode cs = bs :=
  utf8EncodeLoop_decode h

theorem utf8DecodeLoop_congr (f1 : Nat) :
    ∀ (bs : List Nat) (f2 : Nat), bs.length ≤ f1 → bs.length ≤ f2 →
      utf8DecodeLoop f1 bs = utf8DecodeLoop f2 bs := by
  induction f1 with
  | zero =>
    intro bs f2 h1 h2
    cases bs with
    | nil => cases f2 <;> rfl
    | cons b t => simp at h1
  | succ m ih =>
    intro bs f2 h1 h2
    cases bs with
    | nil => cases f2 <;> rfl
    | cons b t =>
      cases f2 with
      | zero => simp at h2
      | succ m2 =>
        unfold utf8DecodeLoop
        rcases hstep : utf8Step b t with - | ⟨cp, rest⟩
        · rfl
        · have hle := utf8Step_rest_le hstep
          simp only [List.length_cons] at h1 h2
          dsimp only
          rw [ih rest m2 (by omega) (by omega)]

theorem utf8DecodeLoop_fuel {fuel : Nat} (bs : List Nat) (hf : bs.length ≤ fuel) :
    utf8DecodeLoop fuel bs = utf8DecodeAux bs :=
  utf8DecodeLoop_congr fuel bs bs.length hf (Nat.le_refl _)

theorem steps_read_rgba (c : Cursor) : Steps c (read_rgba c).2 := by
  unfold read_rgba
  rcases h1 : read_f32 c with ⟨r1, c1⟩
  have s1 : Steps c c1 := by have h := steps_read_f32 c; rwa [h1] at h
  cases r1 with
  | error e => exact s1
  | ok v1 =>
    dsimp only
    rcases h2 : read_f32 c1 with ⟨r2, c2⟩
    have s2 : Steps c c2 := by
      have h := steps_read_f32 c1; rw [h2] at h; exact steps_trans s1 h
    cases r2 with
    | error e => exact s2
    | ok v2 =>
      dsimp only
      rcases h3 : read_f32 c2 with ⟨r3, c3⟩
      have s3 : Steps c c3 := by
        have h := steps_read_f32 c2; rw [h3] at h; exact steps_trans s2 h
      cases r3 with
      | error e => exact s3
      | ok v3 =>
        dsimp only
        rcases h4 : read_f32 c3 with ⟨r4, c4⟩
        have s4 : Steps c c4 := by
          have h := steps_read_f32 c3; rw [h4] at h; exact steps_trans s3 h
        cases r4 with
        | error e => exact s4
        | ok v4 =>
          dsimp only
          exact s4

theorem steps_read_slots (n : Nat) (colors : ColorSet) (c : Cursor) :
    Steps c (read_slots n colors c).2 := by
  induction n generalizing colors c with
  | zero => exact steps_refl c
  | succ m ih =>
    show Steps c (read_slots (m + 1) colors c).2
    unfold read_slots
    rcases h1 : read_string c with ⟨r1, c1⟩
    have s1 : Steps c c1 := by have h := steps_read_string c; rwa [h1] at h
    cases r1 with
    | error e => exact s1
    | ok slot =>
      dsimp only
      rcases h2 : read_rgba c1 with ⟨r2, c2⟩
      have s2 : Steps c c2 := by
        have h := steps_read_rgba c1; rw [h2] at h; exact steps_trans s1 h
      cases r2 with
      | error e => exact s2
      | ok col =>
        dsimp only
        exact steps_trans s2 (ih _ c2)

theorem steps_read_set (c : Cursor) : Steps c (read_set c).2 := by
  unfold read_set
  rcases h1 : read_u32 c with ⟨r1, c1⟩
  have s1 : Steps c c1 := by have h := steps_read_u32 c; rwa [h1] at h
  cases r1 with
  | error e => exact s1
  | ok slot_count =>
    dsimp only
    rcases h2 : read_slots slot_count [] c1 with ⟨r2, c2⟩
    have s2 : Steps c c2 := by
      have h := steps_read_slots slot_count [] c1; rw [h2] at h; exact steps_trans s1 h
    cases r2 with
    | error e => exact s2
    | ok colors =>
      dsimp only
      rcases h3 : read_rgba c2 with ⟨r3, c3⟩
      have s3 : Steps c c3 := by
        have h := steps_read_rgba c2; rw [h3] at h; exact steps_trans s2 h
      cases r3 with
      | error e => exact s3
      | ok lastc =>
        dsimp only
        exact s3

theorem steps_read_strings (n : Nat) (c : Cursor) : Steps c (read_strings n c).2 := by
  induction n generalizing c with
  | zero => exact steps_refl c
  | succ m ih =>
    show Steps c (read_strings (m + 1) c).2
    unfold read_strings
    rcases h1 : read_string c with ⟨r1, c1⟩
    have s1 : Steps c c1 := by have h := steps_read_string c; rwa [h1] at h
    cases r1 with
    | error e => exact s1
    | ok s =>
      dsimp only
      rcases h2 : read_strings m c1 with ⟨r2, c2⟩
      have s2 : Steps c c2 := by
        have h := ih c1; rw [h2] at h; exact steps_trans s1 h
      cases r2 with
      | error e => exact s2
      | ok l =>
        dsimp only
        exact s2

theorem steps_read_sets (n : Nat) (c : Cursor) : Steps c (read_sets n c).2 := by
  induction n generalizing c with
  | zero => exact steps_refl c
  | succ m ih =>
    show Steps c (read_sets (m + 1) c).2
    unfold read_sets
    rcases h1 : read_set c with ⟨r1, c1⟩
    have s1 : Steps c c1 := by have h := steps_read_set c; rwa [h1] at h
    cases r1 with
    | error e => exact s1
    | ok s =>
      dsimp only
      rcases h2 : read_sets m c1 with ⟨r2, c2⟩
      have s2 : Steps c c2 := by
        have h := ih c1; rw [h2] at h; exact steps_trans s1 h
      cases r2 with
      | error e => exact s2
      | ok l =>
        dsimp only
        exact s2

theorem steps_read_u32s (n : Nat) (c : Cursor) : Steps c (read_u32s n c).2 := by
  induction n generalizing c with
  | zero => exact steps_refl c
  | succ m ih =>
    show Steps c (read_u32s (m + 1) c).2
    unfold read_u32s
    rcases h1 : read_u32 c with ⟨r1, c1⟩
    have s1 : Steps c c1 := by have h := steps_read_u32 c; rwa [h1] at h
    cases r1 with
    | error e => exact s1
    | ok v =>
      dsimp only
      rcases h2 : read_u32s m c1 with ⟨r2, c2⟩
      have s2 : Steps c c2 := by
        have h := ih c1; rw [h2] at h; exact steps_trans s1 h
      cases r2 with
      | error e => exact s2
      | ok l =>
        dsimp only
        exact s2

theorem steps_read_skin (c : Cursor) : Steps c (read_skin c).2 := by
  unfold read_skin
  rcases h1 : read_string c with ⟨r1, c1⟩
  have s1 : Steps c c1 := by have h := steps_read_string c; rwa [h1] at h
  cases r1 with
  | error e => exact s1
  | ok name =>
    dsimp only
    rcases h2 : read_u32 c1 with ⟨r2, c2⟩
    have s2 : Steps c c2 := by
      have h := steps_read_u32 c1; rw [h2] at h; exact steps_trans s1 h
    cases r2 with
    | error e => exact s2
    | ok zone =>
      dsimp only
      rcases h3 : read_u32 c2 with ⟨r3, c3⟩
      have s3 : Steps c c3 := by
        have h := steps_read_u32 c2; rw [h3] at h; exact steps_trans s2 h
      cases r3 with
      | error e => exact s3
      | ok isb =>
        dsimp only
        rcases h4 : read_u32 c3 with ⟨r4, c4⟩
        have s4 : Steps c c4 := by
          have h := steps_read_u32 c3; rw [h4] at h; exact steps_trans s3 h
        cases r4 with
        | error e => exact s4
        | ok ist =>
          dsimp only
          rcases h5 : read_u32 c4 with ⟨r5, c5⟩
          have s5 : Steps c c5 := by
            have h := steps_read_u32 c4; rw [h5] at h; exact steps_trans s4 h
          cases r5 with
          | error e => exact s5
          | ok iso =>
            dsimp only
            rcases h6 : read_u32 c5 with ⟨r6, c6⟩
            have s6 : Steps c c6 := by
              have h := steps_read_u32 c5; rw [h6] at h; exact steps_trans s5 h
            cases r6 with
            | error e => exact s6
            | ok skin_count =>
              dsimp only
              rcases h7 : read_strings skin_count c6 with ⟨r7, c7⟩
              have s7 : Steps c c7 := by
                have h := steps_read_strings skin_count c6
                rw [h7] at h; exact steps_trans s6 h
              cases r7 with
              | error e => exact s7
              | ok skins =>
                dsimp only
                rcases h8 : read_u32 c7 with ⟨r8, c8⟩
                have s8 : Steps c c8 := by
                  have h := steps_read_u32 c7; rw [h8] at h; exact steps_trans s7 h
                cases r8 with
                | error e => exact s8
                | ok set_count =>
                  dsimp only
                  rcases h9 : read_sets set_count c8 with ⟨r9, c9⟩
                  have s9 : Steps c c9 := by
                    have h := steps_read_sets set_count c8
                    rw [h9] at h; exact steps_trans s8 h
                  cases r9 with
                  | error e => exact s9
                  | ok sets =>
                    dsimp only
                    rcases h10 : read_u32 c9 with ⟨r10, c10⟩
                    have s10 : Steps c c10 := by
                      have h := steps_read_u32 c9; rw [h10] at h; exact steps_trans s9 h
                    cases r10 with
                    | error e => exact s10
                    | ok last =>
                      dsimp only
                      exact s10

theorem read_string_ok_progress {c : Cursor} {s : List Nat} {c' : Cursor}
    (h : read_string c = (Except.ok s, c')) :
    c'.buf = c.buf ∧ c.off + 4 ≤ c.buf.length ∧ c.off + 4 ≤ c'.off ∧
      c'.off ≤ c.buf.length := by
  unfold read_string at h
  rcases hu : read_u32 c with ⟨r, c1⟩
  rw [hu] at h
  cases r with
  | error e => exact absurd h (by simp)
  | ok n =>
    obtain ⟨hle, hv, hc1⟩ := read_u32_ok hu
    subst hc1
    dsimp only at h
    split at h
    · split at h
      · split at h
        · simp only [Prod.mk.injEq] at h
          obtain ⟨hs, hc⟩ := h
          rw [← hc]
          simp only [fread]
          refine ⟨trivial, hle, by omega, by omega⟩
        · exact absurd h (by simp)
      · exact absurd h (by simp)
    · split at h
      · simp only [Prod.mk.injEq] at h
        obtain ⟨hs, hc⟩ := h
        rw [← hc]
        simp only [fread]
        refine ⟨trivial, hle, by omega, by omega⟩
      · exact absurd h (by simp)

theorem read_u32_ok_progress {c : Cursor} {v : Nat} {c' : Cursor}
    (h : read_u32 c = (Except.ok v, c')) :
    c'.buf = c.buf ∧ c.off + 4 ≤ c.buf.length ∧ c.off + 4 ≤ c'.off ∧
      c'.off ≤ c.buf.length := by
  obtain ⟨hle, hv, hc⟩ := read_u32_ok h
  subst hc
  exact ⟨rfl, hle, Nat.le_refl _, hle⟩

theorem read_skin_ok_progress {c : Cursor} {sk : Skin} {c' : Cursor}
    (h : read_skin c = (Except.ok sk, c')) :
    c'.buf = c.buf ∧ c.off < c'.off ∧ c'.off ≤ c.buf.length := by
  unfold read_skin at h
  rcases h1 : read_string c with ⟨r1, c1⟩
  rw [h1] at h
  cases r1 with
  | error e => exact absurd h (by simp)
  | ok name =>
    dsimp only at h
    obtain ⟨hb1, hl1, ha1, hu1⟩ := read_string_ok_progress h1
    have hc1in : c1.off ≤ c1.buf.length := by rw [hb1]; exact hu1
    rcases h2 : read_u32 c1 with ⟨r2, c2⟩
    rw [h2] at h
    cases r2 with
    | error e => exact absurd h (by simp)
    | ok zone =>
      dsimp only at h
      have st2 : Steps c1 c2 := by have hs := steps_read_u32 c1; rwa [h2] at hs
      rcases h3 : read_u32 c2 with ⟨r3, c3⟩
      rw [h3] at h
      cases r3 with
      | error e => exact absurd h (by simp)
      | ok isb =>
        dsimp only at h
        have st3 : Steps c1 c3 := by
          have hs := steps_read_u32 c2; rw [h3] at hs; exact steps_trans st2 hs
        rcases h4 : read_u32 c3 with ⟨r4, c4⟩
        rw [h4] at h
        cases r4 with
        | error e => exact absurd h (by simp)
        | ok ist =>
          dsimp only at h
          have st4 : Steps c1 c4 := by
            have hs := steps_read_u32 c3; rw [h4] at hs; exact steps_trans st3 hs
          rcases h5 : read_u32 c4 with ⟨r5, c5⟩
          rw [h5] at h
          cases r5 with
          | error e => exact absurd h (by simp)
          | ok iso =>
            dsimp only at h
            have st5 : Steps c1 c5 := by
              have hs := steps_read_u32 c4; rw [h5] at hs; exact steps_trans st4 hs
            rcases h6 : read_u32 c5 with ⟨r6, c6⟩
            rw [h6] at h
            cases r6 with
            | error e => exact absurd h (by simp)
            | ok skin_count =>
              dsimp only at h
              have st6 : Steps c1 c6 := by
                have hs := steps_read_u32 c5; rw [h6] at hs; exact steps_trans st5 hs
              rcases h7 : read_strings skin_count c6 with ⟨r7, c7⟩
              rw [h7] at h
              cases r7 with
              | error e => exact absurd h (by simp)
              | ok skins =>
                dsimp only at h
                have st7 : Steps c1 c7 := by
                  have hs := steps_read_strings skin_count c6
                  rw [h7] at hs; exact steps_trans st6 hs
                rcases h8 : read_u32 c7 with ⟨r8, c8⟩
                rw [h8] at h
                cases r8 with
                | error e => exact absurd h (by simp)
                | ok set_count =>
                  dsimp only at h
                  have st8 : Steps c1 c8 := by
                    have hs := steps_read_u32 c7; rw [h8] at hs; exact steps_trans st7 hs
                  rcases h9 : read_sets set_count c8 with ⟨r9, c9⟩
                  rw [h9] at h
                  cases r9 with
                  | error e => exact absurd h (by simp)
                  | ok sets =>
                    dsimp only at h
                    have st9 : Steps c1 c9 := by
                      have hs := steps_read_sets set_count c8
                      rw [h9] at hs; exact steps_trans st8 hs
                    rcases h10 : read_u32 c9 with ⟨r10, c10⟩
                    rw [h10] at h
                    cases r10 with
                    | error e => exact absurd h (by simp)
                    | ok last =>
                      dsimp only at h
                      have st10 : Steps c1 c10 := by
                        have hs := steps_read_u32 c9; rw [h10] at hs
                        exact steps_trans st9 hs
                      simp only [Prod.mk.injEq] at h
                      obtain ⟨hsk, hc⟩ := h
                      rw [← hc]
                      obtain ⟨hbf, hof⟩ := st10
                      obtain ⟨hge, hlt⟩ := hof hc1in
                      rw [hbf, hb1]
                      refine ⟨rfl, by omega, by rw [← hb1]; omega⟩

theorem read_u32s_ok_length {n : Nat} {c : Cursor} {l : List Nat} {c' : Cursor}
    (h : read_u32s n c = (Except.ok l, c')) : l.length = n := by
  induction n generalizing c l c' with
  | zero =>
    unfold read_u32s at h
    simp only [Prod.mk.injEq] at h
    obtain ⟨h1, h2⟩ := h
    injection h1 with h1
    simp [← h1]
  | succ m ih =>
    unfold read_u32s at h
    rcases h1 : read_u32 c with ⟨r1, c1⟩
    rw [h1] at h
    cases r1 with
    | error e => exact absurd h (by simp)
    | ok v =>
      dsimp only at h
      rcases h2 : read_u32s m c1 with ⟨r2, c2⟩
      rw [h2] at h
      cases r2 with
      | error e => exact absurd h (by simp)
      | ok l2 =>
        simp only [Prod.mk.injEq] at h
        obtain ⟨hv, hcc⟩ := h
        injection hv with hv
        simp [← hv, ih h2]

theorem decode_skins_ok_eof {fuel : Nat} {c : Cursor} {l : List Skin} {c'' : Cursor}
    (hin : c.off ≤ c.buf.length) (hfuel : c.buf.length - c.off < fuel)
    (h : decode_skins fuel c = (Except.ok l, c'')) :
    c''.buf = c.buf ∧ c''.off = c.buf.length := by
  induction fuel generalizing c l c'' with
  | zero => omega
  | succ m ih =>
    unfold decode_skins at h
    split at h
    · rename_i heof
      simp only [Prod.mk.injEq] at h
      obtain ⟨hl, hc⟩ := h
      have heq : c.off = c.buf.length := by simpa [at_eof] using heof
      rw [← hc]
      exact ⟨rfl, heq⟩
    · rcases hr : read_skin c with ⟨r1, c1⟩
      rw [hr] at h
      cases r1 with
      | error e => exact absurd h (by simp)
      | ok sk =>
        dsimp only at h
        obtain ⟨hb, hlt, hle⟩ := read_skin_ok_progress hr
        rcases hd : decode_skins m c1 with ⟨r2, c2⟩
        rw [hd] at h
        cases r2 with
        | error e => exact absurd h (by simp)
        | ok l2 =>
          simp only [Prod.mk.injEq] at h
          obtain ⟨hl, hc⟩ := h
          have h1 : c1.off ≤ c1.buf.length := by rw [hb]; exact hle
          have h2 : c1.buf.length - c1.off < m := by rw [hb]; omega
          obtain ⟨hb2, he2⟩ := ih h1 h2 hd
          rw [← hc, hb2, hb]
          exact ⟨rfl, by rw [he2, hb]⟩

theorem padOf_lt (n : Nat) : padOf n < 4 := by
  unfold padOf
  split <;> omega

theorem read_string_ok_encode {c : Cursor} {s : List Nat} {c' : Cursor}
    (hB : Bytes c.buf) (h : read_string c = (Except.ok s, c'))
    (hlt : c'.off < c.buf.length) :
    encode_string s = slice c.buf c.off c'.off := by
  unfold read_string at h
  rcases hu : read_u32 c with ⟨r, c1⟩
  rw [hu] at h
  cases r with
  | error e => exact absurd h (by simp)
  | ok n =>
    obtain ⟨hle, hv, hc1⟩ := read_u32_ok hu
    obtain ⟨henc, -, -⟩ := read_u32_ok_encode hB hu
    subst hc1
    dsimp only at h
    split at h
    · rename_i hmod
      -- n % 4 ≠ 0 : padding branch
      split at h
      · rename_i hall
        split at h
        · rename_i str hdec
          simp only [Prod.mk.injEq] at h
          obtain ⟨hs, hc⟩ := h
          injection hs with hs
          rw [hs] at hdec
          -- final cursor offset
          have hcoff : c'.off =
              min (min (c.off + 4 + n) c.buf.length + (4 - n % 4)) c.buf.length := by
            rw [← hc]; simp [fread]
          have hbnd : c.off + 4 + n + (4 - n % 4) ≤ c.buf.length := by
            by_cases hx : c.off + 4 + n ≤ c.buf.length
            · rw [Nat.min_eq_left hx] at hcoff
              omega
            · exfalso
              rw [Nat.min_eq_right (by omega)] at hcoff
              omega
          have hcoff' : c'.off = c.off + 4 + n + (4 - n % 4) := by
            rw [hcoff, Nat.min_eq_left (by omega), Nat.min_eq_left (by omega)]
          have hcont : fread (⟨c.buf, c.off + 4⟩ : Cursor) n =
              (slice c.buf (c.off + 4) (c.off + 4 + n), ⟨c.buf, c.off + 4 + n⟩) := by
            have hx := fread_exact (c := ⟨c.buf, c.off + 4⟩) (k := n)
              (by simp only []; omega)
            simpa using hx
          rw [hcont] at hdec hall
          dsimp only at hdec hall
          have hpad : fread (⟨c.buf, c.off + 4 + n⟩ : Cursor) (4 - n % 4) =
              (slice c.buf (c.off + 4 + n) (c.off + 4 + n + (4 - n % 4)),
                ⟨c.buf, c.off + 4 + n + (4 - n % 4)⟩) := by
            have hx := fread_exact (c := ⟨c.buf, c.off + 4 + n⟩) (k := 4 - n % 4)
              (by simp only []; omega)
            simpa using hx
          rw [hpad] at hall
          dsimp only at hall
          have hsenc : utf8Encode s = slice c.buf (c.off + 4) (c.off + 4 + n) :=
            utf8Encode_decode hdec
          have hslen : (utf8Encode s).length = n := by
            rw [hsenc]
            exact slice_length (by omega)
          have hpadlen : (slice c.buf (c.off + 4 + n) (c.off + 4 + n + (4 - n % 4))).length =
              4 - n % 4 := slice_length (by omega)
          have hrep : slice c.buf (c.off + 4 + n) (c.off + 4 + n + (4 - n % 4)) =
              List.replicate (4 - n % 4) 0 := by
            have hx := all_zero_replicate hall
            rwa [hpadlen] at hx
          unfold encode_string
          rw [hslen, hsenc]
          have hpof : padOf n = 4 - n % 4 := by simp [padOf, hmod]
          rw [hpof, ← hrep, hcoff']
          rw [slice_append c.buf c.off (c.off + 4) (c.off + 4 + n + (4 - n % 4))
            (by omega) (by omega)]
          rw [slice_append c.buf (c.off + 4) (c.off + 4 + n) (c.off + 4 + n + (4 - n % 4))
            (by omega) (by omega)]
          rw [henc, List.append_assoc]
        · exact absurd h (by simp)
      · exact absurd h (by simp)
    · rename_i hmod
      have hmod' : n % 4 = 0 := by omega
      split at h
      · rename_i str hdec
        simp only [Prod.mk.injEq] at h
        obtain ⟨hs, hc⟩ := h
        injection hs with hs
        rw [hs] at hdec
        have hcoff : c'.off = min (c.off + 4 + n) c.buf.length := by
          rw [← hc]; simp [fread]
        have hbnd : c.off + 4 + n ≤ c.buf.length := by
          by_cases hx : c.off + 4 + n ≤ c.buf.length
          · exact hx
          · exfalso
            rw [Nat.min_eq_right (by omega)] at hcoff
            omega
        have hcoff' : c'.off = c.off + 4 + n := by
          rw [hcoff, Nat.min_eq_left (by omega)]
        have hcont : fread (⟨c.buf, c.off + 4⟩ : Cursor) n =
            (slice c.buf (c.off + 4) (c.off + 4 + n), ⟨c.buf, c.off + 4 + n⟩) := by
          have hx := fread_exact (c := ⟨c.buf, c.off + 4⟩) (k := n)
            (by simp only []; omega)
          simpa using hx
        rw [hcont] at hdec
        dsimp only at hdec
        have hsenc : utf8Encode s = slice c.buf (c.off + 4) (c.off + 4 + n) :=
          utf8Encode_decode hdec
        have hslen : (utf8Encode s).length = n := by
          rw [hsenc]
          exact slice_length (by omega)
        unfold encode_string
        rw [hslen, hsenc]
        have hpof : padOf n = 0 := by simp [padOf, hmod']
        rw [hpof, hcoff']
        simp only [List.replicate_zero, List.append_nil]
        rw [slice_append c.buf c.off (c.off + 4) (c.off + 4 + n) (by omega) (by omega)]
        rw [henc]
      · exact absurd h (by simp)

theorem read_string_ok_off {c : Cursor} {s : List Nat} {c' : Cursor}
    (h : read_string c = (Except.ok s, c')) (hlt : c'.off < c.buf.length) :
    c'.off = c.off + 4 + (utf8Encode s).length + padOf (utf8Encode s).length := by
  unfold read_string at h
  rcases hu : read_u32 c with ⟨r, c1⟩
  rw [hu] at h
  cases r with
  | error e => exact absurd h (by simp)
  | ok n =>
    obtain ⟨hle, hv, hc1⟩ := read_u32_ok hu
    subst hc1
    dsimp only at h
    split at h
    · rename_i hmod
      split at h
      · split at h
        · rename_i str hdec
          simp only [Prod.mk.injEq] at h
          obtain ⟨hs, hc⟩ := h
          injection hs with hs
          rw [hs] at hdec
          have hcoff : c'.off =
              min (min (c.off + 4 + n) c.buf.length + (4 - n % 4)) c.buf.length := by
            rw [← hc]; simp [fread]
          have hbnd : c.off + 4 + n + (4 - n % 4) ≤ c.buf.length := by
            by_cases hx : c.off + 4 + n ≤ c.buf.length
            · rw [Nat.min_eq_left hx] at hcoff
              omega
            · exfalso
              rw [Nat.min_eq_right (by omega)] at hcoff
              omega
          have hcoff' : c'.off = c.off + 4 + n + (4 - n % 4) := by
            rw [hcoff, Nat.min_eq_left (by omega), Nat.min_eq_left (by omega)]
          have hcont : fread (⟨c.buf, c.off + 4⟩ : Cursor) n =
              (slice c.buf (c.off + 4) (c.off + 4 + n), ⟨c.buf, c.off + 4 + n⟩) := by
            have hx := fread_exact (c := ⟨c.buf, c.off + 4⟩) (k := n)
              (by simp only []; omega)
            simpa using hx
          rw [hcont] at hdec
          dsimp only at hdec
          have hslen : (utf8Encode s).length = n := by
            rw [utf8Encode_decode hdec]
            exact slice_length (by omega)
          rw [hslen, hcoff']
          have hpof : padOf n = 4 - n % 4 := by simp [padOf, hmod]
          rw [hpof]
        · exact absurd h (by simp)
      · exact absurd h (by simp)
    · rename_i hmod
      have hmod' : n % 4 = 0 := by omega
      split at h
      · rename_i str hdec
        simp only [Prod.mk.injEq] at h
        obtain ⟨hs, hc⟩ := h
        injection hs with hs
        rw [hs] at hdec
        have hcoff : c'.off = min (c.off + 4 + n) c.buf.length := by
          rw [← hc]; simp [fread]
        have hbnd : c.off + 4 + n ≤ c.buf.length := by
          by_cases hx : c.off + 4 + n ≤ c.buf.length
          · exact hx
          · exfalso
            rw [Nat.min_eq_right (by omega)] at hcoff
            omega
        have hcoff' : c'.off = c.off + 4 + n := by
          rw [hcoff, Nat.min_eq_left (by omega)]
        have hcont : fread (⟨c.buf, c.off + 4⟩ : Cursor) n =
            (slice c.buf (c.off + 4) (c.off + 4 + n), ⟨c.buf, c.off + 4 + n⟩) := by
          have hx := fread_exact (c := ⟨c.buf, c.off + 4⟩) (k := n)
            (by simp only []; omega)
          simpa using hx
        rw [hcont] at hdec
        dsimp only at hdec
        have hslen : (utf8Encode s).length = n := by
          rw [utf8Encode_decode hdec]
          exact slice_length (by omega)
        rw [hslen, hcoff']
        have hpof : padOf n = 0 := by simp [padOf, hmod']
        omega
      · exact absurd h (by simp)

theorem read_rgba_ok_encode {c : Cursor} {col : Color} {c' : Cursor}
    (hB : Bytes c.buf) (h : read_rgba c = (Except.ok col, c')) :
    encode_color col = slice c.buf c.off (c.off + 16) ∧
      c' = ⟨c.buf, c.off + 16⟩ ∧ c.off + 16 ≤ c.buf.length := by
  unfold read_rgba at h
  rcases h1 : read_f32 c with ⟨r1, c1⟩
  rw [h1] at h
  rw [read_f32_eq] at h1
  cases r1 with
  | error e => exact absurd h (by simp)
  | ok v1 =>
    dsimp only at h
    obtain ⟨e1, hc1, hl1⟩ := read_u32_ok_encode hB h1
    subst hc1
    rcases h2 : read_f32 (⟨c.buf, c.off + 4⟩ : Cursor) with ⟨r2, c2⟩
    rw [h2] at h
    rw [read_f32_eq] at h2
    cases r2 with
    | error e => exact absurd h (by simp)
    | ok v2 =>
      dsimp only at h
      obtain ⟨e2, hc2, hl2⟩ := read_u32_ok_encode (c := ⟨c.buf, c.off + 4⟩) hB h2
      subst hc2
      rcases h3 : read_f32 (⟨c.buf, c.off + 4 + 4⟩ : Cursor) with ⟨r3, c3⟩
      rw [h3] at h
      rw [read_f32_eq] at h3
      cases r3 with
      | error e => exact absurd h (by simp)
      | ok v3 =>
        dsimp only at h
        obtain ⟨e3, hc3, hl3⟩ := read_u32_ok_encode (c := ⟨c.buf, c.off + 4 + 4⟩) hB h3
        subst hc3
        rcases h4 : read_f32 (⟨c.buf, c.off + 4 + 4 + 4⟩ : Cursor) with ⟨r4, c4⟩
        rw [h4] at h
        rw [read_f32_eq] at h4
        cases r4 with
        | error e => exact absurd h (by simp)
        | ok v4 =>
          dsimp only at h
          obtain ⟨e4, hc4, hl4⟩ := read_u32_ok_encode (c := ⟨c.buf, c.off + 4 + 4 + 4⟩) hB h4
          subst hc4
          simp only [Prod.mk.injEq] at h
          obtain ⟨hcol, hc⟩ := h
          injection hcol with hcol
          subst hcol
          dsimp only at e2 e3 e4 hl4
          refine ⟨?_, ?_, by omega⟩
          · unfold encode_color
            dsimp only
            rw [e1, e2, e3, e4]
            rw [show c.off + 16 = c.off + 4 + 4 + 4 + 4 by omega]
            rw [slice_append c.buf c.off (c.off + 4) (c.off + 4 + 4 + 4 + 4)
              (by omega) (by omega)]
            rw [slice_append c.buf (c.off + 4) (c.off + 4 + 4) (c.off + 4 + 4 + 4 + 4)
              (by omega) (by omega)]
            rw [slice_append c.buf (c.off + 4 + 4) (c.off + 4 + 4 + 4) (c.off + 4 + 4 + 4 + 4)
              (by omega) (by omega)]
            simp only [List.append_assoc]
          · rw [← hc]

theorem read_u32s_ok_encode {n : Nat} {c : Cursor} {l : List Nat} {c' : Cursor}
    (hB : Bytes c.buf) (hin : c.off ≤ c.buf.length)
    (h : read_u32s n c = (Except.ok l, c')) :
    l.length = n ∧ c'.buf = c.buf ∧ c.off ≤ c'.off ∧ c'.off ≤ c.buf.length ∧
      (l.map encode_u32).flatten = slice c.buf c.off c'.off := by
  induction n generalizing c l c' with
  | zero =>
    unfold read_u32s at h
    simp only [Prod.mk.injEq] at h
    obtain ⟨h1, h2⟩ := h
    injection h1 with h1
    subst h2
    rw [← h1]
    refine ⟨rfl, rfl, Nat.le_refl _, hin, ?_⟩
    simp [slice]
  | succ m ih =>
    unfold read_u32s at h
    rcases h1 : read_u32 c with ⟨r1, c1⟩
    rw [h1] at h
    cases r1 with
    | error e => exact absurd h (by simp)
    | ok v =>
      dsimp only at h
      obtain ⟨e1, hc1, hl1⟩ := read_u32_ok_encode hB h1
      subst hc1
      rcases h2 : read_u32s m (⟨c.buf, c.off + 4⟩ : Cursor) with ⟨r2, c2⟩
      rw [h2] at h
      cases r2 with
      | error e => exact absurd h (by simp)
      | ok l2 =>
        simp only [Prod.mk.injEq] at h
        obtain ⟨hv, hcc⟩ := h
        injection hv with hv
        rw [← hcc, ← hv]
        obtain ⟨ihl, ihb, ihge, ihle, ihenc⟩ := ih (c := ⟨c.buf, c.off + 4⟩) hB hl1 h2
        dsimp only at ihb ihge ihle ihenc
        refine ⟨by simp [ihl], ihb, by omega, ihle, ?_⟩
        simp only [List.map_cons, List.flatten_cons]
        rw [e1, ihenc]
        rw [← slice_append c.buf c.off (c.off + 4) c2.off (by omega) (by omega)]

theorem read_strings_ok_encode {n : Nat} {c : Cursor} {l : List (List Nat)} {c' : Cursor}
    (hB : Bytes c.buf) (h : read_strings n c = (Except.ok l, c'))
    (hlt : c'.off < c.buf.length) :
    l.length = n ∧ c'.buf = c.buf ∧ c.off ≤ c'.off ∧
      (l.map encode_string).flatten = slice c.buf c.off c'.off := by
  induction n generalizing c l c' with
  | zero =>
    unfold read_strings at h
    simp only [Prod.mk.injEq] at h
    obtain ⟨h1, h2⟩ := h
    injection h1 with h1
    subst h2
    rw [← h1]
    exact ⟨rfl, rfl, Nat.le_refl _, by simp [slice]⟩
  | succ m ih =>
    unfold read_strings at h
    rcases h1 : read_string c with ⟨r1, c1⟩
    rw [h1] at h
    cases r1 with
    | error e => exact absurd h (by simp)
    | ok s =>
      dsimp only at h
      rcases h2 : read_strings m c1 with ⟨r2, c2⟩
      rw [h2] at h
      cases r2 with
      | error e => exact absurd h (by simp)
      | ok l2 =>
        simp only [Prod.mk.injEq] at h
        obtain ⟨hv, hcc⟩ := h
        injection hv with hv
        obtain ⟨hb1, hl1, ha1, hu1⟩ := read_string_ok_progress h1
        have hst : Steps c1 c2 := by have hs := steps_read_strings m c1; rwa [h2] at hs
        have hc1in : c1.off ≤ c1.buf.length := by rw [hb1]; exact hu1
        obtain ⟨hbb, hoo⟩ := hst
        obtain ⟨hge2, hle2⟩ := hoo hc1in
        have hlt2 : c2.off < c.buf.length := by rw [hcc]; exact hlt
        have hlt1 : c1.off < c.buf.length := by omega
        have es : encode_string s = slice c.buf c.off c1.off :=
          read_string_ok_encode hB h1 hlt1
        obtain ⟨ihl, ihb, ihge, ihenc⟩ :=
          ih (c := c1) (by rw [hb1]; exact hB) h2 (by rw [hb1]; exact hlt2)
        rw [hb1] at ihenc ihb
        rw [← hcc, ← hv]
        refine ⟨by simp [ihl], ihb, by omega, ?_⟩
        simp only [List.map_cons, List.flatten_cons]
        rw [es, ihenc]
        rw [← slice_append c.buf c.off c1.off c2.off (by omega) (by omega)]

theorem gread_slots_ok_encode {n : Nat} {c : Cursor} {ps : List (List Nat × Color)}
    {c' : Cursor} (hB : Bytes c.buf) (hin : c.off ≤ c.buf.length)
    (h : gread_slots n c = (Except.ok ps, c')) :
    ps.length = n ∧ c'.buf = c.buf ∧ c.off ≤ c'.off ∧ c'.off ≤ c.buf.length ∧
      (ps.map (fun p => encode_string p.1 ++ encode_color p.2)).flatten =
        slice c.buf c.off c'.off := by
  induction n generalizing c ps c' with
  | zero =>
    unfold gread_slots at h
    simp only [Prod.mk.injEq] at h
    obtain ⟨h1, h2⟩ := h
    injection h1 with h1
    subst h2
    rw [← h1]
    exact ⟨rfl, rfl, Nat.le_refl _, hin, by simp [slice]⟩
  | succ m ih =>
    unfold gread_slots at h
    rcases h1 : read_string c with ⟨r1, c1⟩
    rw [h1] at h
    cases r1 with
    | error e => exact absurd h (by simp)
    | ok slot =>
      dsimp only at h
      rcases h2 : read_rgba c1 with ⟨r2, c2⟩
      rw [h2] at h
      cases r2 with
      | error e => exact absurd h (by simp)
      | ok col =>
        dsimp only at h
        rcases h3 : gread_slots m c2 with ⟨r3, c3⟩
        rw [h3] at h
        cases r3 with
        | error e => exact absurd h (by simp)
        | ok ps2 =>
          simp only [Prod.mk.injEq] at h
          obtain ⟨hv, hcc⟩ := h
          injection hv with hv
          obtain ⟨hb1, hl1, ha1, hu1⟩ := read_string_ok_progress h1
          obtain ⟨ec, hc2, hl2⟩ := read_rgba_ok_encode (c := c1) (by rw [hb1]; exact hB) h2
          have hlt1 : c1.off < c.buf.length := by rw [← hb1]; omega
          have es : encode_string slot = slice c.buf c.off c1.off :=
            read_string_ok_encode hB h1 hlt1
          rw [hb1] at ec hl2
          have hc2b : c2.buf = c.buf := by rw [hc2, hb1]
          have hc2o : c2.off = c1.off + 16 := by rw [hc2]
          obtain ⟨ihl, ihb, ihge, ihle, ihenc⟩ :=
            ih (c := c2) (by rw [hc2b]; exact hB) (by rw [hc2b, hc2o]; exact hl2) h3
          rw [hc2b] at ihenc ihb ihle
          rw [hc2o] at ihenc ihge
          rw [← hcc, ← hv]
          refine ⟨by simp [ihl], ihb, by omega, ihle, ?_⟩
          simp only [List.map_cons, List.flatten_cons]
          rw [es, ec, ihenc]
          rw [← slice_append c.buf c.off c1.off (c1.off + 16) (by omega) (by omega),
            ← slice_append c.buf c.off (c1.off + 16) c3.off (by omega) (by omega)]

theorem gread_set_ok_encode {c : Cursor} {g : GColorSet} {c' : Cursor}
    (hB : Bytes c.buf) (hin : c.off ≤ c.buf.length)
    (h : gread_set c = (Except.ok g, c')) :
    gencode_set g = slice c.buf c.off c'.off ∧ c'.buf = c.buf ∧ c.off ≤ c'.off ∧
      c'.off ≤ c.buf.length := by
  unfold gread_set at h
  rcases h1 : read_u32 c with ⟨r1, c1⟩
  rw [h1] at h
  cases r1 with
  | error e => exact absurd h (by simp)
  | ok slot_count =>
    dsimp only at h
    obtain ⟨e0, hc1, hl1⟩ := read_u32_ok_encode hB h1
    rcases h2 : gread_slots slot_count c1 with ⟨r2, c2⟩
    rw [h2] at h
    cases r2 with
    | error e => exact absurd h (by simp)
    | ok ps =>
      dsimp only at h
      have hc1b : c1.buf = c.buf := by rw [hc1]
      have hc1o : c1.off = c.off + 4 := by rw [hc1]
      obtain ⟨hpl, hb2, hge2, hle2, eps⟩ :=
        gread_slots_ok_encode (c := c1) (by rw [hc1b]; exact hB)
          (by rw [hc1b, hc1o]; exact hl1) h2
      rcases h3 : read_rgba c2 with ⟨r3, c3⟩
      rw [h3] at h
      cases r3 with
      | error e => exact absurd h (by simp)
      | ok lastc =>
        simp only [Prod.mk.injEq] at h
        obtain ⟨hv, hcc⟩ := h
        injection hv with hv
        obtain ⟨ec, hc3, hl3⟩ :=
          read_rgba_ok_encode (c := c2) (by rw [hb2, hc1b]; exact hB) h3
        rw [hb2, hc1b] at ec hl3
        have hc3b : c3.buf = c.buf := by rw [hc3, hb2, hc1b]
        have hc3o : c3.off = c2.off + 16 := by rw [hc3]
        rw [hc1b] at hb2
        rw [hc1o] at hge2 eps
        rw [hc1b] at eps hle2
        rw [← hcc, ← hv]
        refine ⟨?_, hc3b, by omega, by omega⟩
        unfold gencode_set
        dsimp only
        rw [hpl, e0, eps, ec, hc3o]
        simp only [List.append_assoc]
        rw [← slice_append c.buf (c.off + 4) c2.off (c2.off + 16) (by omega) (by omega)]
        rw [← slice_append c.buf c.off (c.off + 4) (c2.off + 16) (by omega) (by omega)]

theorem gread_sets_ok_encode {n : Nat} {c : Cursor} {l : List GColorSet} {c' : Cursor}
    (hB : Bytes c.buf) (hin : c.off ≤ c.buf.length)
    (h : gread_sets n c = (Except.ok l, c')) :
    l.length = n ∧ c'.buf = c.buf ∧ c.off ≤ c'.off ∧ c'.off ≤ c.buf.length ∧
      (l.map gencode_set).flatten = slice c.buf c.off c'.off := by
  induction n generalizing c l c' with
  | zero =>
    unfold gread_sets at h
    simp only [Prod.mk.injEq] at h
    obtain ⟨h1, h2⟩ := h
    injection h1 with h1
    subst h2
    rw [← h1]
    exact ⟨rfl, rfl, Nat.le_refl _, hin, by simp [slice]⟩
  | succ m ih =>
    unfold gread_sets at h
    rcases h1 : gread_set c with ⟨r1, c1⟩
    rw [h1] at h
    cases r1 with
    | error e => exact absurd h (by simp)
    | ok g =>
      dsimp only at h
      rcases h2 : gread_sets m c1 with ⟨r2, c2⟩
      rw [h2] at h
      cases r2 with
      | error e => exact absurd h (by simp)
      | ok l2 =>
        simp only [Prod.mk.injEq] at h
        obtain ⟨hv, hcc⟩ := h
        injection hv with hv
        obtain ⟨eg, hb1, hge1, hle1⟩ := gread_set_ok_encode hB hin h1
        obtain ⟨ihl, ihb, ihge, ihle, ihenc⟩ :=
          ih (c := c1) (by rw [hb1]; exact hB) (by rw [hb1]; exact hle1) h2
        rw [hb1] at ihenc ihb ihle
        rw [← hcc, ← hv]
        refine ⟨by simp [ihl], ihb, by omega, ihle, ?_⟩
        simp only [List.map_cons, List.flatten_cons]
        rw [eg, ihenc]
        rw [← slice_append c.buf c.off c1.off c2.off (by omega) (by omega)]

theorem gread_skin_ok_encode {c : Cursor} {sk : GSkin} {c' : Cursor}
    (hB : Bytes c.buf) (h : gread_skin c = (Except.ok sk, c')) :
    gencode_skin sk = slice c.buf c.off c'.off ∧ c'.buf = c.buf ∧
      c.off < c'.off ∧ c'.off ≤ c.buf.length := by
  unfold gread_skin at h
  rcases h1 : read_string c with ⟨r1, c1⟩
  rw [h1] at h
  cases r1 with
  | error e => exact absurd h (by simp)
  | ok name =>
    dsimp only at h
    obtain ⟨hb1, hl1, ha1, hu1⟩ := read_string_ok_progress h1
    rcases h2 : read_u32 c1 with ⟨r2, c2⟩
    rw [h2] at h
    cases r2 with
    | error e => exact absurd h (by simp)
    | ok zone =>
      dsimp only at h
      obtain ⟨e2, hc2, hl2⟩ := read_u32_ok_encode (c := c1) (by rw [hb1]; exact hB) h2
      rw [hb1] at e2 hl2
      have hc2b : c2.buf = c.buf := by rw [hc2, hb1]
      have hc2o : c2.off = c1.off + 4 := by rw [hc2]
      have hlt1 : c1.off < c.buf.length := by omega
      have e1 : encode_string name = slice c.buf c.off c1.off :=
        read_string_ok_encode hB h1 hlt1
      rcases h3 : read_u32 c2 with ⟨r3, c3⟩
      rw [h3] at h
      cases r3 with
      | error e => exact absurd h (by simp)
      | ok isb =>
        dsimp only at h
        obtain ⟨e3, hc3, hl3⟩ := read_u32_ok_encode (c := c2) (by rw [hc2b]; exact hB) h3
        rw [hc2b] at e3 hl3
        rw [hc2o] at e3 hl3
        have hc3b : c3.buf = c.buf := by rw [hc3, hc2b]
        have hc3o : c3.off = c1.off + 4 + 4 := by rw [hc3, hc2o]
        rcases h4 : read_u32 c3 with ⟨r4, c4⟩
        rw [h4] at h
        cases r4 with
        | error e => exact absurd h (by simp)
        | ok ist =>
          dsimp only at h
          obtain ⟨e4, hc4, hl4⟩ := read_u32_ok_encode (c := c3) (by rw [hc3b]; exact hB) h4
          rw [hc3b] at e4 hl4
          rw [hc3o] at e4 hl4
          have hc4b : c4.buf = c.buf := by rw [hc4, hc3b]
          have hc4o : c4.off = c1.off + 4 + 4 + 4 := by rw [hc4, hc3o]
          rcases h5 : read_u32 c4 with ⟨r5, c5⟩
          rw [h5] at h
          cases r5 with
          | error e => exact absurd h (by simp)
          | ok iso =>
            dsimp only at h
            obtain ⟨e5, hc5, hl5⟩ :=
              read_u32_ok_encode (c := c4) (by rw [hc4b]; exact hB) h5
            rw [hc4b] at e5 hl5
            rw [hc4o] at e5 hl5
            have hc5b : c5.buf = c.buf := by rw [hc5, hc4b]
            have hc5o : c5.off = c1.off + 4 + 4 + 4 + 4 := by rw [hc5, hc4o]
            rcases h6 : read_u32 c5 with ⟨r6, c6⟩
            rw [h6] at h
            cases r6 with
            | error e => exact absurd h (by simp)
            | ok skin_count =>
              dsimp only at h
              obtain ⟨e6, hc6, hl6⟩ :=
                read_u32_ok_encode (c := c5) (by rw [hc5b]; exact hB) h6
              rw [hc5b] at e6 hl6
              rw [hc5o] at e6 hl6
              have hc6b : c6.buf = c.buf := by rw [hc6, hc5b]
              have hc6o : c6.off = c1.off + 4 + 4 + 4 + 4 + 4 := by rw [hc6, hc5o]
              rcases h7 : read_strings skin_count c6 with ⟨r7, c7⟩
              rw [h7] at h
              cases r7 with
              | error e => exact absurd h (by simp)
              | ok skins =>
                dsimp only at h
                have hst7 : Steps c6 c7 := by
                  have hs := steps_read_strings skin_count c6; rwa [h7] at hs
                have hc7b : c7.buf = c.buf := by rw [hst7.1, hc6b]
                rcases h8 : read_u32 c7 with ⟨r8, c8⟩
                rw [h8] at h
                cases r8 with
                | error e => exact absurd h (by simp)
                | ok set_count =>
                  dsimp only at h
                  obtain ⟨e8, hc8, hl8⟩ :=
                    read_u32_ok_encode (c := c7) (by rw [hc7b]; exact hB) h8
                  rw [hc7b] at e8 hl8
                  have hc8b : c8.buf = c.buf := by rw [hc8, hc7b]
                  have hc8o : c8.off = c7.off + 4 := by rw [hc8]
                  obtain ⟨hsl, hc7b', hge7, e7⟩ :=
                    read_strings_ok_encode (c := c6) (by rw [hc6b]; exact hB) h7
                      (by rw [hc6b]; omega)
                  rw [hc6b] at e7
                  rw [hc6o] at e7 hge7
                  rcases h9 : gread_sets set_count c8 with ⟨r9, c9⟩
                  rw [h9] at h
                  cases r9 with
                  | error e => exact absurd h (by simp)
                  | ok sets =>
                    dsimp only at h
                    obtain ⟨hstl, hc9b, hge9, hle9, e9⟩ :=
                      gread_sets_ok_encode (c := c8) (by rw [hc8b]; exact hB)
                        (by rw [hc8b, hc8o]; exact hl8) h9
                    rw [hc8b] at e9 hc9b hle9
                    rw [hc8o] at e9 hge9
                    rcases h10 : read_u32 c9 with ⟨r10, c10⟩
                    rw [h10] at h
                    cases r10 with
                    | error e => exact absurd h (by simp)
                    | ok last =>
                      simp only [Prod.mk.injEq] at h
                      obtain ⟨hv, hcc⟩ := h
                      injection hv with hv
                      obtain ⟨e10, hc10, hl10⟩ :=
                        read_u32_ok_encode (c := c9) (by rw [hc9b]; exact hB) h10
                      rw [hc9b] at e10 hl10
                      have hc10b : c10.buf = c.buf := by rw [hc10, hc9b]
                      have hc10o : c10.off = c9.off + 4 := by rw [hc10]
                      rw [← hcc, ← hv]
                      refine ⟨?_, hc10b, by omega, by omega⟩
                      unfold gencode_skin
                      dsimp only
                      rw [hsl, hstl, e1, e2, e3, e4, e5, e6, e7, e8, e9, e10, hc10o]
                      simp only [List.append_assoc]
                      rw [← slice_append c.buf (c7.off + 4) c9.off (c9.off + 4)
                        (by omega) (by omega)]
                      rw [← slice_append c.buf c7.off (c7.off + 4) (c9.off + 4)
                        (by omega) (by omega)]
                      rw [← slice_append c.buf (c1.off + 4 + 4 + 4 + 4 + 4) c7.off
                        (c9.off + 4) (by omega) (by omega)]
                      rw [← slice_append c.buf (c1.off + 4 + 4 + 4 + 4)
                        (c1.off + 4 + 4 + 4 + 4 + 4) (c9.off + 4) (by omega) (by omega)]
                      rw [← slice_append c.buf (c1.off + 4 + 4 + 4)
                        (c1.off + 4 + 4 + 4 + 4) (c9.off + 4) (by omega) (by omega)]
                      rw [← slice_append c.buf (c1.off + 4 + 4)
                        (c1.off + 4 + 4 + 4) (c9.off + 4) (by omega) (by omega)]
                      rw [← slice_append c.buf (c1.off + 4)
                        (c1.off + 4 + 4) (c9.off + 4) (by omega) (by omega)]
                      rw [← slice_append c.buf c1.off (c1.off + 4) (c9.off + 4)
                        (by omega) (by omega)]
                      rw [← slice_append c.buf c.off c1.off (c9.off + 4)
                        (by omega) (by omega)]

theorem gdecode_skins_ok_encode {fuel : Nat} {c : Cursor} {l : List GSkin} {c' : Cursor}
    (hB : Bytes c.buf) (hin : c.off ≤ c.buf.length)
    (hfuel : c.buf.length - c.off < fuel)
    (h : gdecode_skins fuel c = (Except.ok l, c')) :
    c'.buf = c.buf ∧ c'.off = c.buf.length ∧
      (l.map gencode_skin).flatten = slice c.buf c.off c.buf.length := by
  induction fuel generalizing c l c' with
  | zero => omega
  | succ m ih =>
    unfold gdecode_skins at h
    split at h
    · rename_i heof
      simp only [Prod.mk.injEq] at h
      obtain ⟨hl, hc⟩ := h
      injection hl with hl
      have heq : c.off = c.buf.length := by simpa [at_eof] using heof
      rw [← hc, ← hl]
      exact ⟨rfl, heq, by simp [slice, heq]⟩
    · rcases hr : gread_skin c with ⟨r1, c1⟩
      rw [hr] at h
      cases r1 with
      | error e => exact absurd h (by simp)
      | ok sk =>
        dsimp only at h
        obtain ⟨esk, hb1, hlt1, hle1⟩ := gread_skin_ok_encode hB hr
        rcases hd : gdecode_skins m c1 with ⟨r2, c2⟩
        rw [hd] at h
        cases r2 with
        | error e => exact absurd h (by simp)
        | ok l2 =>
          simp only [Prod.mk.injEq] at h
          obtain ⟨hl, hc⟩ := h
          injection hl with hl
          obtain ⟨ihb, ihe, ihenc⟩ :=
            ih (c := c1) (by rw [hb1]; exact hB) (by rw [hb1]; exact hle1)
              (by rw [hb1]; omega) hd
          rw [hb1] at ihb ihe ihenc
          rw [← hc, ← hl]
          refine ⟨ihb, ihe, ?_⟩
          simp only [List.map_cons, List.flatten_cons]
          rw [esk, ihenc]
          rw [← slice_append c.buf c.off c1.off c.buf.length (by omega) (by omega)]

theorem gdecode_document_ok_encode {c : Cursor} {g : GDoc} {c' : Cursor}
    (hB : Bytes c.buf) (hin : c.off ≤ c.buf.length)
    (h : gdecode_document c = (Except.ok g, c')) :
    gencode_document g = slice c.buf c.off c.buf.length ∧ c'.buf = c.buf ∧
      c'.off = c.buf.length ∧ g.unk.length = 11 := by
  unfold gdecode_document at h
  rcases h1 : read_u32s 11 c with ⟨r1, c1⟩
  rw [h1] at h
  cases r1 with
  | error e => exact absurd h (by simp)
  | ok unk =>
    dsimp only at h
    obtain ⟨hul, hb1, hge1, hle1, e1⟩ := read_u32s_ok_encode hB hin h1
    rcases h2 : read_u32 c1 with ⟨r2, c2⟩
    rw [h2] at h
    cases r2 with
    | error e => exact absurd h (by simp)
    | ok set_count =>
      dsimp only at h
      obtain ⟨e2, hc2, hl2⟩ := read_u32_ok_encode (c := c1) (by rw [hb1]; exact hB) h2
      rw [hb1] at e2 hl2
      have hc2b : c2.buf = c.buf := by rw [hc2, hb1]
      have hc2o : c2.off = c1.off + 4 := by rw [hc2]
      rcases h3 : gread_sets set_count c2 with ⟨r3, c3⟩
      rw [h3] at h
      cases r3 with
      | error e => exact absurd h (by simp)
      | ok initial_sets =>
        dsimp only at h
        obtain ⟨hsl, hc3b, hge3, hle3, e3⟩ :=
          gread_sets_ok_encode (c := c2) (by rw [hc2b]; exact hB)
            (by rw [hc2b, hc2o]; exact hl2) h3
        rw [hc2b] at e3 hc3b hle3
        rw [hc2o] at e3 hge3
        rcases h4 : read_u32 c3 with ⟨r4, c4⟩
        rw [h4] at h
        cases r4 with
        | error e => exact absurd h (by simp)
        | ok last =>
          dsimp only at h
          obtain ⟨e4, hc4, hl4⟩ :=
            read_u32_ok_encode (c := c3) (by rw [hc3b]; exact hB) h4
          rw [hc3b] at e4 hl4
          have hc4b : c4.buf = c.buf := by rw [hc4, hc3b]
          have hc4o : c4.off = c3.off + 4 := by rw [hc4]
          rcases h5 : gdecode_skins (c.buf.length + 1) c4 with ⟨r5, c5⟩
          rw [h5] at h
          cases r5 with
          | error e => exact absurd h (by simp)
          | ok skins =>
            simp only [Prod.mk.injEq] at h
            obtain ⟨hv, hcc⟩ := h
            injection hv with hv
            obtain ⟨hb5, he5, e5⟩ :=
              gdecode_skins_ok_encode (c := c4) (by rw [hc4b]; exact hB)
                (by rw [hc4b, hc4o]; exact hl4) (by rw [hc4b]; omega) h5
            rw [hc4b] at hb5 he5 e5
            rw [hc4o] at e5
            rw [← hcc, ← hv]
            refine ⟨?_, hb5, he5, by simp [hul]⟩
            unfold gencode_document
            dsimp only
            rw [hsl, e1, e2, e3, e4, e5]
            simp only [List.append_assoc]
            rw [← slice_append c.buf c3.off (c3.off + 4) c.buf.length
              (by omega) (by omega)]
            rw [← slice_append c.buf (c1.off + 4) c3.off c.buf.length
              (by omega) (by omega)]
            rw [← slice_append c.buf c1.off (c1.off + 4) c.buf.length
              (by omega) (by omega)]
            rw [← slice_append c.buf c.off c1.off c.buf.length
              (by omega) (by omega)]

theorem read_slots_sim (n : Nat) (acc : ColorSet) (c : Cursor) :
    read_slots n acc c =
      ((gread_slots n c).1.map (fun ps => insSlots acc ps), (gread_slots n c).2) := by
  induction n generalizing acc c with
  | zero => rfl
  | succ m ih =>
    show read_slots (m + 1) acc c = _
    unfold read_slots gread_slots
    rcases h1 : read_string c with ⟨r1, c1⟩
    cases r1 with
    | error e => rfl
    | ok slot =>
      dsimp only [Except.map]
      rcases h2 : read_rgba c1 with ⟨r2, c2⟩
      cases r2 with
      | error e => rfl
      | ok col =>
        dsimp only [Except.map]
        rw [ih]
        rcases h3 : gread_slots m c2 with ⟨r3, c3⟩
        cases r3 with
        | error e => rfl
        | ok ps => rfl

theorem read_set_sim (c : Cursor) :
    read_set c = ((gread_set c).1.map collapseSet, (gread_set c).2) := by
  unfold read_set gread_set
  rcases h1 : read_u32 c with ⟨r1, c1⟩
  cases r1 with
  | error e => rfl
  | ok slot_count =>
    dsimp only [Except.map]
    rw [read_slots_sim]
    rcases h2 : gread_slots slot_count c1 with ⟨r2, c2⟩
    cases r2 with
    | error e => rfl
    | ok ps =>
      dsimp only [Except.map]
      rcases h3 : read_rgba c2 with ⟨r3, c3⟩
      cases r3 with
      | error e => rfl
      | ok lastc => rfl

theorem read_sets_sim (n : Nat) (c : Cursor) :
    read_sets n c =
      ((gread_sets n c).1.map (List.map collapseSet), (gread_sets n c).2) := by
  induction n generalizing c with
  | zero => rfl
  | succ m ih =>
    show read_sets (m + 1) c = _
    unfold read_sets gread_sets
    rw [read_set_sim]
    rcases h1 : gread_set c with ⟨r1, c1⟩
    cases r1 with
    | error e => rfl
    | ok g =>
      dsimp only [Except.map]
      rw [ih]
      rcases h2 : gread_sets m c1 with ⟨r2, c2⟩
      cases r2 with
      | error e => rfl
      | ok l2 => rfl

theorem read_skin_sim (c : Cursor) :
    read_skin c = ((gread_skin c).1.map collapseSkin, (gread_skin c).2) := by
  unfold read_skin gread_skin
  rcases h1 : read_string c with ⟨r1, c1⟩
  cases r1 with
  | error e => rfl
  | ok name =>
    dsimp only [Except.map]
    rcases h2 : read_u32 c1 with ⟨r2, c2⟩
    cases r2 with
    | error e => rfl
    | ok zone =>
      dsimp only [Except.map]
      rcases h3 : read_u32 c2 with ⟨r3, c3⟩
      cases r3 with
      | error e => rfl
      | ok isb =>
        dsimp only [Except.map]
        rcases h4 : read_u32 c3 with ⟨r4, c4⟩
        cases r4 with
        | error e => rfl
        | ok ist =>
          dsimp only [Except.map]
          rcases h5 : read_u32 c4 with ⟨r5, c5⟩
          cases r5 with
          | error e => rfl
          | ok iso =>
            dsimp only [Except.map]
            rcases h6 : read_u32 c5 with ⟨r6, c6⟩
            cases r6 with
            | error e => rfl
            | ok skin_count =>
              dsimp only [Except.map]
              rcases h7 : read_strings skin_count c6 with ⟨r7, c7⟩
              cases r7 with
              | error e => rfl
              | ok skins =>
                dsimp only [Except.map]
                rcases h8 : read_u32 c7 with ⟨r8, c8⟩
                cases r8 with
                | error e => rfl
                | ok set_count =>
                  dsimp only [Except.map]
                  rw [read_sets_sim]
                  rcases h9 : gread_sets set_count c8 with ⟨r9, c9⟩
                  cases r9 with
                  | error e => rfl
                  | ok sets =>
                    dsimp only [Except.map]
                    rcases h10 : read_u32 c9 with ⟨r10, c10⟩
                    cases r10 with
                    | error e => rfl
                    | ok last => rfl

theorem decode_skins_sim (fuel : Nat) (c : Cursor) :
    decode_skins fuel c =
      ((gdecode_skins fuel c).1.map (List.map collapseSkin),
        (gdecode_skins fuel c).2) := by
  induction fuel generalizing c with
  | zero => rfl
  | succ m ih =>
    show decode_skins (m + 1) c = _
    unfold decode_skins gdecode_skins
    by_cases heof : (at_eof c).1
    · rw [if_pos heof, if_pos heof]
      rfl
    · rw [if_neg heof, if_neg heof]
      rw [read_skin_sim]
      rcases h1 : gread_skin c with ⟨r1, c1⟩
      cases r1 with
      | error e => rfl
      | ok sk =>
        dsimp only [Except.map]
        rw [ih]
        rcases h2 : gdecode_skins m c1 with ⟨r2, c2⟩
        cases r2 with
        | error e => rfl
        | ok l2 => rfl

theorem decode_document_sim (c : Cursor) :
    decode_document c =
      ((gdecode_document c).1.map collapseDoc, (gdecode_document c).2) := by
  unfold decode_document gdecode_document
  rcases h1 : read_u32s 11 c with ⟨r1, c1⟩
  cases r1 with
  | error e => rfl
  | ok unk =>
    dsimp only [Except.map]
    rcases h2 : read_u32 c1 with ⟨r2, c2⟩
    cases r2 with
    | error e => rfl
    | ok set_count =>
      dsimp only [Except.map]
      rw [read_sets_sim]
      rcases h3 : gread_sets set_count c2 with ⟨r3, c3⟩
      cases r3 with
      | error e => rfl
      | ok initial_sets =>
        dsimp only [Except.map]
        rcases h4 : read_u32 c3 with ⟨r4, c4⟩
        cases r4 with
        | error e => rfl
        | ok last =>
          dsimp only [Except.map]
          rw [decode_skins_sim]
          rcases h5 : gdecode_skins (c.buf.length + 1) c4 with ⟨r5, c5⟩
          cases r5 with
          | error e => rfl
          | ok skins => rfl

theorem dictInsert_not_mem {d : ColorSet} {k : List Nat} (v : CVal)
    (h : k ∉ d.map Prod.fst) : dictInsert d k v = d ++ [(k, v)] := by
  unfold dictInsert
  rw [if_neg]
  simp only [List.any_eq_true, beq_iff_eq, not_exists]
  intro p hp
  rcases hp with ⟨hmem, hk⟩
  exact absurd (List.mem_map.mpr ⟨p, hmem, hk⟩) h

theorem insSlots_append (ps : List (List Nat × Color)) (acc : ColorSet)
    (hnd : (ps.map Prod.fst).Nodup)
    (hdisj : ∀ k ∈ ps.map Prod.fst, k ∉ acc.map Prod.fst) :
    insSlots acc ps = acc ++ ps.map (fun p => (p.1, CVal.slotC p.2)) := by
  induction ps generalizing acc with
  | nil => simp [insSlots]
  | cons p ps ih =>
    have hstep : dictInsert acc p.1 (CVal.slotC p.2) = acc ++ [(p.1, CVal.slotC p.2)] :=
      dictInsert_not_mem _ (hdisj p.1 (by simp))
    show insSlots (dictInsert acc p.1 (CVal.slotC p.2)) ps = _
    rw [hstep]
    rw [List.map_cons, List.nodup_cons] at hnd
    have hdisj' : ∀ k ∈ ps.map Prod.fst,
        k ∉ (acc ++ [(p.1, CVal.slotC p.2)]).map Prod.fst := by
      intro k hk hmem
      simp only [List.map_append, List.mem_append] at hmem
      rcases hmem with hka | hkp
      · exact hdisj k (by simp [hk]) hka
      · simp at hkp
        rw [hkp] at hk
        exact hnd.1 hk
    rw [ih (acc ++ [(p.1, CVal.slotC p.2)]) hnd.2 hdisj']
    simp

theorem map_fst_slots (sl : List (List Nat × Color)) :
    (sl.map (fun p => (p.1, CVal.slotC p.2))).map Prod.fst = sl.map Prod.fst := by
  simp [List.map_map]

theorem collapseSet_eq {g : GColorSet} (hWF : WFSet g) :
    collapseSet g =
      g.slots.map (fun p => (p.1, CVal.slotC p.2)) ++ [(lastKey, CVal.lastC g.last)] := by
  obtain ⟨hnd, hnl⟩ := hWF
  unfold collapseSet
  rw [insSlots_append g.slots [] hnd (by simp)]
  rw [List.nil_append]
  rw [dictInsert_not_mem _ (by rw [map_fst_slots]; exact hnl)]

theorem find_skip {l l2 : List (List Nat × CVal)}
    (h : ∀ p ∈ l, ¬ p.1 = lastKey) :
    (l ++ l2).find? (fun p => p.1 == lastKey) = l2.find? (fun p => p.1 == lastKey) := by
  induction l with
  | nil => rfl
  | cons p ps ih =>
    rw [List.cons_append]
    rw [List.find?_cons_of_neg]
    · exact ih (fun q hq => h q (by simp [hq]))
    · simp only [beq_iff_eq]
      exact h p (by simp)

theorem encode_set_collapse {g : GColorSet} (hWF : WFSet g) :
    encode_set (collapseSet g) = gencode_set g := by
  have hkeys : ∀ p ∈ g.slots.map (fun p => (p.1, CVal.slotC p.2)), ¬ p.1 = lastKey := by
    intro p hp
    rcases List.mem_map.mp hp with ⟨q, hq, hpq⟩
    rw [← hpq]
    intro hk
    exact hWF.2 (List.mem_map.mpr ⟨q, hq, hk⟩)
  rw [collapseSet_eq hWF]
  unfold encode_set gencode_set
  have hfil : ((g.slots.map (fun p => (p.1, CVal.slotC p.2)) ++
      [(lastKey, CVal.lastC g.last)]).filter (fun p => !(p.1 == lastKey))) =
      g.slots.map (fun p => (p.1, CVal.slotC p.2)) := by
    rw [List.filter_append]
    rw [List.filter_eq_self.mpr]
    · simp
    · intro p hp
      simp only [Bool.not_eq_eq_eq_not, Bool.not_true, beq_eq_false_iff_ne, ne_eq]
      exact hkeys p hp
  rw [hfil]
  have hfind2 : ((g.slots.map (fun p => (p.1, CVal.slotC p.2)) ++
      [(lastKey, CVal.lastC g.last)]).find? (fun p => p.1 == lastKey)) =
      some (lastKey, CVal.lastC g.last) := by
    rw [find_skip hkeys]
    simp [List.find?]
  rw [hfind2]
  simp only [List.length_map, List.map_map, Option.map_some', Option.getD_some]
  simp only [CVal.color]
  congr 1

theorem encode_skin_collapse {sk : GSkin} (hWF : WFSkin sk) :
    encode_skin (collapseSkin sk) = gencode_skin sk := by
  unfold encode_skin gencode_skin collapseSkin
  dsimp only
  simp only [List.length_map, List.map_map]
  rw [show List.map (encode_set ∘ collapseSet) sk.sets = List.map gencode_set sk.sets from
    List.map_congr_left fun g hg => encode_set_collapse (hWF g hg)]

theorem encode_document_collapse {d : GDoc} (hWF : WFDoc d) :
    encode_document (collapseDoc d) = gencode_document d := by
  unfold encode_document gencode_document collapseDoc
  dsimp only
  simp only [List.length_map, List.map_map]
  rw [show List.map (encode_set ∘ collapseSet) d.initial_sets =
      List.map gencode_set d.initial_sets from
    List.map_congr_left fun g hg => encode_set_collapse (hWF.1 g hg)]
  rw [show List.map (encode_skin ∘ collapseSkin) d.skins = List.map gencode_skin d.skins from
    List.map_congr_left fun s hs => encode_skin_collapse (hWF.2 s hs)]

theorem gread_slots_ok_length {n : Nat} {c : Cursor} {ps : List (List Nat × Color)}
    {c' : Cursor} (h : gread_slots n c = (Except.ok ps, c')) : ps.length = n := by
  induction n generalizing c ps c' with
  | zero =>
    unfold gread_slots at h
    simp only [Prod.mk.injEq] at h
    injection h.1 with h1
    simp [← h1]
  | succ m ih =>
    unfold gread_slots at h
    rcases h1 : read_string c with ⟨r1, c1⟩
    rw [h1] at h
    cases r1 with
    | error e => exact absurd h (by simp)
    | ok slot =>
      dsimp only at h
      rcases h2 : read_rgba c1 with ⟨r2, c2⟩
      rw [h2] at h
      cases r2 with
      | error e => exact absurd h (by simp)
      | ok col =>
        dsimp only at h
        rcases h3 : gread_slots m c2 with ⟨r3, c3⟩
        rw [h3] at h
        cases r3 with
        | error e => exact absurd h (by simp)
        | ok ps2 =>
          simp only [Prod.mk.injEq] at h
          injection h.1 with h1
          simp [← h1, ih h3]

/-- Claim C1: the claim states that `read_skin` reads every field, in
particular `set_count`, from its own cursor and from no other cursor or
shared state.  The source line 63 (`set_count = w.read_u32()`) instead
reads `set_count` from the module-global cursor `w`, so for a receiver
distinct from `w` the decoded skin depends on `w`'s stream: on the same
28-byte receiver stream `bufC1`, a global cursor holding `[0,0,0,0]`
(set count 0) yields a successful skin with no color sets and `last = 9`,
while a global cursor holding `[1,0,0,0]` (set count 1) makes the method
try to decode a color set from the receiver's remaining 4 bytes and fail
with `bufferUnderrun`.  The claim is right about the intent and the code
is a slip (it only works because the script's sole receiver is `w`
itself). -/
theorem C1_set_count_read_from_global_cursor :
    read_skin_method ⟨bufC1, 0⟩ ⟨[0, 0, 0, 0], 0⟩ =
      (Except.ok ⟨[], 1, 0, 0, 0, [], [], 9⟩, ⟨bufC1, 28⟩, ⟨[0, 0, 0, 0], 4⟩) ∧
    read_skin_method ⟨bufC1, 0⟩ ⟨[1, 0, 0, 0], 0⟩ =
      (Except.error Err.bufferUnderrun, ⟨bufC1, 28⟩, ⟨[1, 0, 0, 0], 4⟩) :=
  ⟨by rfl, by rfl⟩

/-- Claim C2, counterexample: on a color-set stream whose single slot is
literally named `"last"`, `read_set` returns a dict with ONE entry: the
slot's color (bit pattern 1) has been overwritten by the trailing color
(bit pattern 2), stored as a tuple under the key `"last"`.  This refutes
the claim that the trailing color "is not keyed by any slot name and is
stored separately from the slot mapping; in particular a slot literally
named `last` does not collide with the trailing color". -/
theorem C2_counterexample_last_slot_collides :
    read_set ⟨bufC2, 0⟩ =
      (Except.ok [(lastKey, CVal.lastC ⟨2, 2, 2, 2⟩)], ⟨bufC2, 44⟩) ∧
    (lastKey, CVal.slotC ⟨1, 1, 1, 1⟩) ∉ [(lastKey, CVal.lastC ⟨2, 2, 2, 2⟩)] :=
  ⟨by rfl, by decide⟩

/-- Claim C2 (amended): for a well-formed color-set encoding with
`slot_count = k` whose `k` read slot names are pairwise distinct and none
of them is the string `"last"`, `decode_color_set` returns the `k` read
slot entries in read order followed by the trailing color, which is stored
in the same insertion-ordered mapping under the key `"last"` (as a
tuple-shaped value); with duplicate or `"last"`-named slots the dict
assignment overwrites instead. -/
theorem C2_colorset_exact_entries {c : Cursor} {k : Nat} {c0 c1 c2 : Cursor}
    {ps : List (List Nat × Color)} {l : Color}
    (hu : read_u32 c = (Except.ok k, c0))
    (hs : gread_slots k c0 = (Except.ok ps, c1))
    (hnd : (ps.map Prod.fst).Nodup)
    (hnl : lastKey ∉ ps.map Prod.fst)
    (hr : read_rgba c1 = (Except.ok l, c2)) :
    read_set c =
      (Except.ok (ps.map (fun p => (p.1, CVal.slotC p.2)) ++ [(lastKey, CVal.lastC l)]),
        c2) ∧ ps.length = k := by
  have hg : gread_set c = (Except.ok ⟨ps, l⟩, c2) := by
    unfold gread_set
    rw [hu]
    dsimp only
    rw [hs]
    dsimp only
    rw [hr]
  constructor
  · rw [read_set_sim, hg]
    dsimp only [Except.map]
    rw [collapseSet_eq ⟨hnd, hnl⟩]
  · exact gread_slots_ok_length hs

/-- Witness for C2: on the stream `bufC2w` (one slot `"a"`), the amended
claim instantiates to a concrete dict with the slot entry followed by the
`"last"` entry. -/
theorem C2_colorset_exact_entries_witness :
    read_set ⟨bufC2w, 0⟩ =
      (Except.ok [([97], CVal.slotC ⟨0, 0, 0, 0⟩),
        (lastKey, CVal.lastC ⟨3, 3, 3, 3⟩)], ⟨bufC2w, 44⟩) ∧
      ([([97], (⟨0, 0, 0, 0⟩ : Color))] : List (List Nat × Color)).length = 1 :=
  @C2_colorset_exact_entries ⟨bufC2w, 0⟩ 1 ⟨bufC2w, 4⟩ ⟨bufC2w, 28⟩ ⟨bufC2w, 44⟩
    [([97], ⟨0, 0, 0, 0⟩)] ⟨3, 3, 3, 3⟩ (by rfl) (by rfl) (by decide) (by decide) (by rfl)

/-- Claim C4, counterexample: with a declared length of 5 but only 3
content bytes remaining, `read_string` silently consumes just the 3
remaining bytes (Python `file.read` returns short), reads no padding and
succeeds with the truncated string — the final offset is 7, not the
`4 + 5 + padOf 5 = 12` the claim's "consumes exactly n bytes plus
4 - (n mod 4) padding bytes" requires, and no failure is reported. -/
theorem C4_counterexample_truncated_read :
    read_string ⟨[5, 0, 0, 0, 97, 98, 99], 0⟩ =
      (Except.ok [97, 98, 99], ⟨[5, 0, 0, 0, 97, 98, 99], 7⟩) ∧
    (7 : Nat) ≠ 0 + 4 + 5 + padOf 5 :=
  ⟨by rfl, by decide⟩

/-- Claim C4 (amended): whenever at least `n + padOf n` bytes remain after
the u32 length word `n`, `read_string` consumes exactly `n` content bytes
and exactly `padOf n` padding bytes (none when `n mod 4 = 0`, including
`n = 0`), fails with `invalidPadding` if any padding byte is nonzero (the
padding check precedes the decode), otherwise UTF-8-decodes the content,
failing with `invalidEncoding` on a decode error and succeeding with the
decoded string otherwise.  On shorter buffers the reads are silently
truncated (see the counterexample). -/
theorem C4_read_string_exact {c : Cursor} {n : Nat} {c1 : Cursor}
    (hu : read_u32 c = (Except.ok n, c1))
    (hen : c1.off + n + padOf n ≤ c.buf.length) :
    read_string c =
      (if (slice c.buf (c1.off + n) (c1.off + n + padOf n)).all (fun p => p == 0) then
        match utf8DecodeAux (slice c.buf c1.off (c1.off + n)) with
        | some str => Except.ok str
        | none => Except.error Err.invalidEncoding
      else Except.error Err.invalidPadding,
      ⟨c.buf, c1.off + n + padOf n⟩) :=
  read_string_of_enough hu hen

/-- Witness for C4: length 5, "hello", 3 zero padding bytes succeeds with
the 5-byte string at offset 12; the same stream with a nonzero padding
byte fails with `invalidPadding`. -/
theorem C4_read_string_exact_witness :
    read_string ⟨[5, 0, 0, 0, 104, 101, 108, 108, 111, 0, 0, 0], 0⟩ =
      (Except.ok [104, 101, 108, 108, 111],
        ⟨[5, 0, 0, 0, 104, 101, 108, 108, 111, 0, 0, 0], 12⟩) ∧
    read_string ⟨[5, 0, 0, 0, 104, 101, 108, 108, 111, 0, 1, 0], 0⟩ =
      (Except.error Err.invalidPadding,
        ⟨[5, 0, 0, 0, 104, 101, 108, 108, 111, 0, 1, 0], 12⟩) :=
  ⟨@C4_read_string_exact ⟨[5, 0, 0, 0, 104, 101, 108, 108, 111, 0, 0, 0], 0⟩ 5
      ⟨[5, 0, 0, 0, 104, 101, 108, 108, 111, 0, 0, 0], 4⟩ (by rfl) (by decide),
    @C4_read_string_exact ⟨[5, 0, 0, 0, 104, 101, 108, 108, 111, 0, 1, 0], 0⟩ 5
      ⟨[5, 0, 0, 0, 104, 101, 108, 108, 111, 0, 1, 0], 4⟩ (by rfl) (by decide)⟩

/-- Claim C6: on the 52-byte buffer (11-word header, `initial_set_count`
0, trailing u32, nothing else) `decode_document` succeeds with an empty
skin list; with one extra byte appended, `at_eof` is false with 1 byte
remaining, so a spurious skin decode is attempted and fails with
`bufferUnderrun` (the 1 remaining byte cannot satisfy the name string's
length read). -/
theorem C6_empty_and_trailing_byte :
    decode_document ⟨buf52, 0⟩ = (Except.ok doc52, ⟨buf52, 52⟩) ∧
    decode_document ⟨buf53, 0⟩ = (Except.error Err.bufferUnderrun, ⟨buf53, 53⟩) ∧
    (at_eof ⟨buf53, 52⟩).1 = false :=
  ⟨by rfl, by rfl, by decide⟩

/-- Claim C9, counterexample: `at_eof` is one of the Cursor operations
(spec §4.1 lists it under "Operations"), yet it consumes nothing — the
offset after the call equals the offset before, not strictly greater —
and running it twice is indistinguishable from running it once.  This
refutes "No Cursor operation is idempotent: every operation consumes
bytes". -/
theorem C9_counterexample_at_eof_idempotent :
    (at_eof ⟨[0, 1, 2], 0⟩).2.off = (⟨[0, 1, 2], 0⟩ : Cursor).off ∧
    at_eof ((at_eof ⟨[0, 1, 2], 0⟩).2) = at_eof ⟨[0, 1, 2], 0⟩ ∧
    (at_eof ⟨[0, 1, 2], 0⟩).1 = false := by
  exact ⟨by rfl, by rfl, by decide⟩

/-- Claim C9 (amended): no READ operation is idempotent — on every cursor
state on which it succeeds, each of `read_u32`, `read_f32` and
`read_string` leaves the offset strictly greater than before (each
consumes at least the 4 bytes of a u32), so running the same read twice is
observably different from running it once; `at_eof` consumes nothing and
is idempotent (see the counterexample). -/
theorem C9_reads_strictly_consume :
    ∀ c : Cursor,
      (∀ v c', read_u32 c = (Except.ok v, c') → c.off < c'.off) ∧
      (∀ v c', read_f32 c = (Except.ok v, c') → c.off < c'.off) ∧
      (∀ s c', read_string c = (Except.ok s, c') → c.off < c'.off) := by
  intro c
  refine ⟨fun v c' h => ?_, fun v c' h => ?_, fun s c' h => ?_⟩
  · have hc := (read_u32_ok h).2.2
    rw [hc]
    show c.off < c.off + 4
    omega
  · rw [read_f32_eq] at h
    have hc := (read_u32_ok h).2.2
    rw [hc]
    show c.off < c.off + 4
    omega
  · have ha := (read_string_ok_progress h).2.2.1
    omega

/-- Witness for C9: a successful `read_u32`, `read_f32` and `read_string`
on concrete cursors at offset 0 each end strictly beyond offset 0. -/
theorem C9_reads_strictly_consume_witness :
    (0 : Nat) < (4 : Nat) ∧ (0 : Nat) < (4 : Nat) ∧ (0 : Nat) < (4 : Nat) :=
  ⟨(C9_reads_strictly_consume ⟨[8, 0, 0, 0], 0⟩).1 8 ⟨[8, 0, 0, 0], 4⟩ (by rfl),
    (C9_reads_strictly_consume ⟨[8, 0, 0, 0], 0⟩).2.1 8 ⟨[8, 0, 0, 0], 4⟩ (by rfl),
    (C9_reads_strictly_consume ⟨[0, 0, 0, 0], 0⟩).2.2 [] ⟨[0, 0, 0, 0], 4⟩ (by rfl)⟩

/-- Claim C10: when `read_u32` (or `read_f32`, which has the same body)
fails because fewer than 4 bytes remain, `self.f.read(4)` has already
consumed the remaining bytes before `struct.unpack` raises: the offset
after the failed call equals the buffer length, so `at_eof` is true and
the cursor is not restored to its pre-call state. -/
theorem C10_failed_read_consumes_rest {c : Cursor}
    (hin : c.off ≤ c.buf.length) (hlt : c.buf.length < c.off + 4) :
    read_u32 c = (Except.error Err.bufferUnderrun, ⟨c.buf, c.buf.length⟩) ∧
    read_f32 c = (Except.error Err.bufferUnderrun, ⟨c.buf, c.buf.length⟩) ∧
    (at_eof (read_u32 c).2).1 = true := by
  have hr : read_u32 c = (Except.error Err.bufferUnderrun, ⟨c.buf, c.buf.length⟩) := by
    unfold read_u32
    rw [if_neg]
    · rw [fread_snd]
      congr 2
      omega
    · rw [fread_fst_len]
      omega
  refine ⟨hr, by rw [read_f32_eq]; exact hr, ?_⟩
  rw [hr]
  simp [at_eof]

/-- Witness for C10: a 2-byte buffer read from offset 0 fails with
`bufferUnderrun`, consuming both bytes (offset 2 = length, `at_eof`
true). -/
theorem C10_failed_read_consumes_rest_witness :
    read_u32 ⟨[9, 9], 0⟩ = (Except.error Err.bufferUnderrun, ⟨[9, 9], 2⟩) ∧
    read_f32 ⟨[9, 9], 0⟩ = (Except.error Err.bufferUnderrun, ⟨[9, 9], 2⟩) ∧
    (at_eof (read_u32 ⟨[9, 9], 0⟩).2).1 = true :=
  C10_failed_read_consumes_rest (c := ⟨[9, 9], 0⟩) (by decide) (by decide)

/-- Claim C3, counterexample: `bufC3` is a valid stream (it decodes
successfully and the final offset 120 is the whole buffer, all entries
are bytes), but its single color set declares `slot_count = 2` with the
same slot name twice; the dict collapses the duplicate, so the decoded
document `docC3` retains one slot entry and any grammar re-encoding
writes `slot_count = 1` — the original buffer cannot be reproduced. -/
theorem C3_counterexample_duplicate_slot :
    decode_document ⟨bufC3, 0⟩ = (Except.ok docC3, ⟨bufC3, 120⟩) ∧
    bufC3.length = 120 ∧ Bytes bufC3 ∧ encode_document docC3 ≠ bufC3 :=
  ⟨by rfl, by rfl, by decide, by decide⟩

/-- Claim C3 (amended): for every byte stream whose grammar-level parse
succeeds (consuming the whole buffer, which `gdecode_document` success
entails) and in which every color set's slot names are pairwise distinct
with none equal to `"last"`, the decoder produces the collapsed document
and re-encoding it with the grammar encoder reproduces the original
buffer exactly; streams with duplicate or `"last"`-named slots lose
information in the dict and cannot round-trip (see the
counterexample). -/
theorem C3_roundtrip {buf : List Nat} {g : GDoc} {c' : Cursor}
    (hB : Bytes buf)
    (h : gdecode_document ⟨buf, 0⟩ = (Except.ok g, c'))
    (hWF : WFDoc g) :
    decode_document ⟨buf, 0⟩ = (Except.ok (collapseDoc g), c') ∧
      c'.off = buf.length ∧ encode_document (collapseDoc g) = buf := by
  have henc := gdecode_document_ok_encode (c := ⟨buf, 0⟩) hB (by simp) h
  refine ⟨?_, henc.2.2.1, ?_⟩
  · rw [decode_document_sim, h]
    rfl
  · rw [encode_document_collapse hWF, henc.1]
    exact slice_whole buf

/-- Witness for C3: the 96-byte single-set document `bufC3w` (distinct
slot names, none `"last"`) decodes and re-encodes to itself exactly. -/
theorem C3_roundtrip_witness :
    decode_document ⟨bufC3w, 0⟩ =
      (Except.ok (collapseDoc gdocC3w), ⟨bufC3w, 96⟩) ∧
    (⟨bufC3w, 96⟩ : Cursor).off = bufC3w.length ∧
    encode_document (collapseDoc gdocC3w) = bufC3w :=
  @C3_roundtrip bufC3w gdocC3w ⟨bufC3w, 96⟩ (by decide) (by rfl) (by decide)

/-- Claim C5: under the well-formedness condition `offset ≤ length`, a
successful `decode_document` yields exactly 11 header words preserved as
an array, leaves the buffer unchanged and stops exactly when `at_eof`
holds (the final offset is the buffer length); and every successful
`read_skin` strictly advances the offset while staying within the
buffer, which is the measure that makes the unbounded skin loop
terminate on every finite buffer (the fuel `buffer length + 1` supplied
in `decode_skins` is therefore sufficient, so the loop always ends in a
document or an error). -/
theorem C5_structure_and_termination :
    ∀ c : Cursor, c.off ≤ c.buf.length →
      (∀ d c', decode_document c = (Except.ok d, c') →
        d.unk.length = 11 ∧ c'.buf = c.buf ∧ (at_eof c').1 = true) ∧
      (∀ sk c', read_skin c = (Except.ok sk, c') →
        c.off < c'.off ∧ c'.off ≤ c.buf.length ∧ c'.buf = c.buf) := by
  intro c hin
  constructor
  · intro d c' h
    unfold decode_document at h
    rcases h1 : read_u32s 11 c with ⟨r1, c1⟩
    rw [h1] at h
    cases r1 with
    | error e => exact absurd h (by simp)
    | ok unk =>
      dsimp only at h
      have st1 : Steps c c1 := by have hs := steps_read_u32s 11 c; rwa [h1] at hs
      rcases h2 : read_u32 c1 with ⟨r2, c2⟩
      rw [h2] at h
      cases r2 with
      | error e => exact absurd h (by simp)
      | ok set_count =>
        dsimp only at h
        have st2 : Steps c c2 := by
          have hs := steps_read_u32 c1; rw [h2] at hs; exact steps_trans st1 hs
        rcases h3 : read_sets set_count c2 with ⟨r3, c3⟩
        rw [h3] at h
        cases r3 with
        | error e => exact absurd h (by simp)
        | ok initial_sets =>
          dsimp only at h
          have st3 : Steps c c3 := by
            have hs := steps_read_sets set_count c2
            rw [h3] at hs; exact steps_trans st2 hs
          rcases h4 : read_u32 c3 with ⟨r4, c4⟩
          rw [h4] at h
          cases r4 with
          | error e => exact absurd h (by simp)
          | ok last =>
            dsimp only at h
            have st4 : Steps c c4 := by
              have hs := steps_read_u32 c3; rw [h4] at hs; exact steps_trans st3 hs
            rcases h5 : decode_skins (c.buf.length + 1) c4 with ⟨r5, c5⟩
            rw [h5] at h
            cases r5 with
            | error e => exact absurd h (by simp)
            | ok skins =>
              simp only [Prod.mk.injEq] at h
              obtain ⟨hd, hc⟩ := h
              injection hd with hd
              obtain ⟨hb4, ho4⟩ := st4
              obtain ⟨hge4, hle4⟩ := ho4 hin
              obtain ⟨hb5, he5⟩ :=
                decode_skins_ok_eof (c := c4) (by rw [hb4]; exact hle4)
                  (by rw [hb4]; omega) h5
              rw [hb4] at hb5 he5
              refine ⟨?_, ?_, ?_⟩
              · rw [← hd]
                exact read_u32s_ok_length h1
              · rw [← hc]
                exact hb5
              · rw [← hc]
                simp only [at_eof]
                rw [he5, hb5]
                simp
  · intro sk c' h
    obtain ⟨hb, hlt, hle⟩ := read_skin_ok_progress h
    exact ⟨hlt, hle, hb⟩

/-- Witness for C5: on the concrete 52-byte document, the decoded header
has 11 words, the buffer is unchanged and the final cursor is exactly at
end of file. -/
theorem C5_structure_and_termination_witness :
    doc52.unk.length = 11 ∧ (⟨buf52, 52⟩ : Cursor).buf = buf52 ∧
      (at_eof ⟨buf52, 52⟩).1 = true :=
  (C5_structure_and_termination ⟨buf52, 0⟩ (by decide)).1 doc52 ⟨buf52, 52⟩ (by rfl)

/-- Claim C7: decode failures are propagated unwrapped and totally.  A
failing first primitive read makes the enclosing composite fail with the
same error kind and the same cursor state: through `read_string` (the
length word), `decode_skin` (the name string), `decode_color_set` (the
slot count) and `decode_document` (the first header word); and
`decode_document` always returns either a complete document or a single
terminal error among `bufferUnderrun`, `invalidEncoding` and
`invalidPadding` — no partial document and no defaulted field exists in
the result type. -/
theorem C7_error_propagation :
    ∀ (c : Cursor) (e : Err),
      ((read_u32 c).1 = Except.error e →
        read_string c = (Except.error e, (read_u32 c).2)) ∧
      ((read_string c).1 = Except.error e →
        read_skin c = (Except.error e, (read_string c).2)) ∧
      ((read_u32 c).1 = Except.error e →
        read_set c = (Except.error e, (read_u32 c).2)) ∧
      ((read_u32 c).1 = Except.error e →
        decode_document c = (Except.error e, (read_u32 c).2)) ∧
      ((∃ d, (decode_document c).1 = Except.ok d) ∨
        ∃ e', (decode_document c).1 = Except.error e' ∧
          (e' = Err.bufferUnderrun ∨ e' = Err.invalidEncoding ∨
            e' = Err.invalidPadding)) := by
  intro c e
  refine ⟨?_, ?_, ?_, ?_, ?_⟩
  · intro h
    unfold read_string
    rcases hu : read_u32 c with ⟨r, c1⟩
    rw [hu] at h
    dsimp only at h
    rw [h]
  · intro h
    unfold read_skin
    rcases hs : read_string c with ⟨r, c1⟩
    rw [hs] at h
    dsimp only at h
    rw [h]
  · intro h
    unfold read_set
    rcases hu : read_u32 c with ⟨r, c1⟩
    rw [hu] at h
    dsimp only at h
    rw [h]
  · intro h
    unfold decode_document
    have h11 : read_u32s 11 c = (Except.error e, (read_u32 c).2) := by
      unfold read_u32s
      rcases hu : read_u32 c with ⟨r, c1⟩
      rw [hu] at h
      dsimp only at h
      rw [h]
    rw [h11]
  · rcases hr : (decode_document c).1 with e' | d
    · exact Or.inr ⟨e', rfl, by cases e' <;> simp⟩
    · exact Or.inl ⟨d, rfl⟩

/-- Witness for C7: on the empty buffer the first u32 read fails with
`bufferUnderrun`, and `read_string`, `read_skin`, `read_set` and
`decode_document` all fail with exactly that error and cursor state. -/
theorem C7_error_propagation_witness :
    read_string ⟨[], 0⟩ = (Except.error Err.bufferUnderrun, ⟨[], 0⟩) ∧
    read_set ⟨[], 0⟩ = (Except.error Err.bufferUnderrun, ⟨[], 0⟩) ∧
    decode_document ⟨[], 0⟩ = (Except.error Err.bufferUnderrun, ⟨[], 0⟩) :=
  ⟨(C7_error_propagation ⟨[], 0⟩ Err.bufferUnderrun).1 (by rfl),
    (C7_error_propagation ⟨[], 0⟩ Err.bufferUnderrun).2.2.1 (by rfl),
    (C7_error_propagation ⟨[], 0⟩ Err.bufferUnderrun).2.2.2.1 (by rfl)⟩

/-- Claim C8: on every cursor within its buffer (`offset ≤ length`),
`at_eof` returns true iff the offset equals the length exactly and does
not change the cursor, and every operation — the underlying `fread` (for
any size, covering all intermediate states inside `read_string`), and
`read_u32`, `read_f32`, `read_string` whether they succeed or fail —
preserves the buffer, never decreases the offset, and keeps the offset
within `0 ≤ offset ≤ length`. -/
theorem C8_cursor_invariants :
    ∀ c : Cursor, c.off ≤ c.buf.length →
      (((at_eof c).1 = true ↔ c.off = c.buf.length) ∧ (at_eof c).2 = c) ∧
      (∀ k, (fread c k).2.buf = c.buf ∧ c.off ≤ (fread c k).2.off ∧
        (fread c k).2.off ≤ c.buf.length) ∧
      ((read_u32 c).2.buf = c.buf ∧ c.off ≤ (read_u32 c).2.off ∧
        (read_u32 c).2.off ≤ c.buf.length) ∧
      ((read_f32 c).2.buf = c.buf ∧ c.off ≤ (read_f32 c).2.off ∧
        (read_f32 c).2.off ≤ c.buf.length) ∧
      ((read_string c).2.buf = c.buf ∧ c.off ≤ (read_string c).2.off ∧
        (read_string c).2.off ≤ c.buf.length) := by
  intro c hin
  refine ⟨⟨?_, rfl⟩, ?_, ?_, ?_, ?_⟩
  · simp [at_eof]
  · intro k
    obtain ⟨hb, ho⟩ := steps_fread c k
    obtain ⟨h1, h2⟩ := ho hin
    exact ⟨hb, h1, h2⟩
  · obtain ⟨hb, ho⟩ := steps_read_u32 c
    obtain ⟨h1, h2⟩ := ho hin
    exact ⟨hb, h1, h2⟩
  · obtain ⟨hb, ho⟩ := steps_read_f32 c
    obtain ⟨h1, h2⟩ := ho hin
    exact ⟨hb, h1, h2⟩
  · obtain ⟨hb, ho⟩ := steps_read_string c
    obtain ⟨h1, h2⟩ := ho hin
    exact ⟨hb, h1, h2⟩

/-- Witness for C8: the invariants instantiated on a concrete 3-byte
cursor at offset 0 (for `fread`, at size 2). -/
theorem C8_cursor_invariants_witness :
    (((at_eof ⟨[1, 2, 3], 0⟩).1 = true ↔ (0 : Nat) = 3) ∧
      (at_eof ⟨[1, 2, 3], 0⟩).2 = ⟨[1, 2, 3], 0⟩) ∧
    ((fread ⟨[1, 2, 3], 0⟩ 2).2.buf = [1, 2, 3] ∧
      (0 : Nat) ≤ (fread ⟨[1, 2, 3], 0⟩ 2).2.off ∧
      (fread ⟨[1, 2, 3], 0⟩ 2).2.off ≤ 3) ∧
    ((read_string ⟨[1, 2, 3], 0⟩).2.buf = [1, 2, 3] ∧
      (0 : Nat) ≤ (read_string ⟨[1, 2, 3], 0⟩).2.off ∧
      (read_string ⟨[1, 2, 3], 0⟩).2.off ≤ 3) :=
  ⟨(C8_cursor_invariants ⟨[1, 2, 3], 0⟩ (by decide)).1,
    (C8_cursor_invariants ⟨[1, 2, 3], 0⟩ (by decide)).2.1 2,
    (C8_cursor_invariants ⟨[1, 2, 3], 0⟩ (by decide)).2.2.2.2⟩

end WorshipperData
